import Mathlib

/-!
# Receive loop and gap tracker of `recv.c`

A shallow embedding of the receive benchmark `src/recv.c`: the gap bookkeeping
(`note_gap`, `report_errors_internal`, `report_errors`) and the event loop
`rx_loop`, followed by theorems about them.

Conventions of the embedding.

* C `int` values are mathematical integers (`Int`); `unsigned int` values are
  natural numbers below `2 ^ 32`.  The conversions the C code performs
  implicitly when it mixes the two (`seq >= cfg_iter`, `seq == next_expected`,
  `seq - 1`, `seq + 1`) are explicit: `to_unsigned` and `to_int`.
  Signed overflow (undefined in C) is outside the model; the theorems that need
  it carry the range of `int` as a hypothesis.
* The linked list `struct error` is a `List Gap`, head first (the `next`
  pointer is the tail).
* `printf` output is modelled by the values printed.  A `double` is the
  rational it denotes: `to_double` rounds to the nearest binary64 value (ties to
  even), and `printf_3f` is the decimal that `%.3f` prints.
* The polled input of the loop is a list of event batches, one batch per call
  of `ef_eventq_poll`.  The payload word that the loop reads from the buffer
  named by a receive event is carried by the event.
-/

namespace Recv

/-! ## Machine integers -/

/-- Conversion of an `int` to `unsigned int`: reduction modulo `2 ^ 32`. -/
def to_unsigned (x : Int) : Nat := (x % 4294967296).toNat

/-- Conversion of an `unsigned int` expression to `int` (two's complement), after
wrapping the unsigned value modulo `2 ^ 32`. -/
def to_int (u : Nat) : Int :=
  if u % 4294967296 < 2147483648 then ((u % 4294967296 : Nat) : Int)
  else ((u % 4294967296 : Nat) : Int) - 4294967296

/-! ## Floating point -/

/-- Rounding of a rational to the nearest integer, ties to the even one. -/
def round_half_even (x : ℚ) : Int :=
  if x - ⌊x⌋ < 1 / 2 then ⌊x⌋
  else if 1 / 2 < x - ⌊x⌋ then ⌊x⌋ + 1
  else if ⌊x⌋ % 2 = 0 then ⌊x⌋ else ⌊x⌋ + 1

/-- The binary64 value nearest to `x` (IEEE 754 round to nearest, ties to even):
with `2 ^ e ≤ |x| < 2 ^ (e + 1)` the 53-bit significand is `x / 2 ^ (e - 52)`
rounded to an integer.  Exponent range is not modelled: the values `rx_loop`
computes lie between `2 ^ (-31)` and `2 ^ 31`, far from the subnormal and
overflow thresholds. -/
def to_double (x : ℚ) : ℚ :=
  if x = 0 then 0
  else (round_half_even (x / 2 ^ (Int.log 2 |x| - 52)) : ℚ) * 2 ^ (Int.log 2 |x| - 52)

/-- Division of two `double` values: the exact quotient rounded to binary64. -/
def double_div (a b : ℚ) : ℚ := to_double (a / b)

/-- The number that `printf("%.3f", d)` prints for a finite `double` `d`: the
decimal with three fractional digits nearest to the exact value of `d`, ties to
even. -/
def printf_3f (d : ℚ) : ℚ := (round_half_even (d * 1000) : ℚ) / 1000

/-- The percentage printed at line 210 of `rx_loop`:
`(double) remain / ((double) cfg_iter / 100.)` under `%.3f`.  The conversions of
the two `int` values to `double` and the constant `100.` are exact; each
division rounds to binary64; `printf` rounds to three decimals. -/
def loss_percent (remain cfg_iter : Int) : ℚ :=
  printf_3f (double_div (remain : ℚ) (double_div (cfg_iter : ℚ) 100))

/-! ## Constants -/

/-- `#define EVENTS_PER_POLL 32` -/
def EVENTS_PER_POLL : Nat := 32

/-- `#define N_BUFS 256u` -/
def N_BUFS : Nat := 256

/-- `#define MAX_ERROR_DETAILS 20` -/
def MAX_ERROR_DETAILS : Int := 20

/-! ## Gap list -/

/-- One node of `struct error`: the fields `start` and `end`. -/
structure Gap where
  start : Int
  end_ : Int
deriving DecidableEq, Repr

/-- `note_gap`: pre-increments the global `error_count` and, while the
incremented count is below `MAX_ERROR_DETAILS`, pushes a new node in front of
the list.  Returns the new count and the new list head. -/
def note_gap (error_count : Int) (error : List Gap) (start end_ : Int) :
    Int × List Gap :=
  let error_count := error_count + 1
  if error_count < MAX_ERROR_DETAILS then
    (error_count, { start := start, end_ := end_ } :: error)
  else
    (error_count, error)

/-- What `report_errors_internal` prints, one item per `printf`. -/
inductive Item where
  /-- `printf("+%d+ ", ...)` -/
  | stride (d : Int)
  /-- `printf("-%d- ", ...)` -/
  | size (d : Int)
deriving DecidableEq, Repr

/-- `report_errors_internal`: recurses into `error->next` first, then prints the
stride (only when there is a next node) and the size item of this node. -/
def report_errors_internal : List Gap → List Item
  | [] => []
  | error :: next =>
    report_errors_internal next ++
      ((match next with
        | [] => []
        | n :: _ => [Item.stride (error.start - n.end_)]) ++
       [Item.size (error.end_ - error.start)])

/-- Output of `report_errors`: the items printed after `Gaps:` and the argument
of the line `%d more errors not shown` when that line is printed. -/
structure Report where
  items : List Item
  more_not_shown : Option Int
deriving DecidableEq, Repr

/-- `report_errors`. -/
def report_errors (error_count : Int) (error : List Gap) : Report :=
  { items := report_errors_internal error
    more_not_shown :=
      if error_count > MAX_ERROR_DETAILS then some (error_count - MAX_ERROR_DETAILS)
      else none }

/-! ## Gap tracker: the locals of `rx_loop` and the block at lines 188-199 -/

/-- The gap-tracking variables of `rx_loop`: the locals `next_expected`,
`in_gap`, `gap_start`, `error` and the global `error_count`. -/
structure Tracker where
  next_expected : Int
  in_gap : Int
  gap_start : Int
  error : List Gap
  error_count : Int
deriving DecidableEq, Repr

/-- The gap-tracking block of `rx_loop` (lines 188-199) for one observed
`unsigned int seq`.  The comparison `seq == next_expected` is done in
`unsigned int`; `seq - 1` and `seq + 1` are unsigned expressions converted to
`int`. -/
def rx_loop_track (t : Tracker) (seq : Nat) : Tracker :=
  let t1 : Tracker :=
    if seq = to_unsigned t.next_expected then
      if t.in_gap ≠ 0 then
        let r := note_gap t.error_count t.error t.gap_start (to_int (seq + 4294967295))
        { t with in_gap := 0, error := r.2, error_count := r.1 }
      else t
    else
      if t.in_gap = 0 then
        { t with in_gap := 1, gap_start := t.next_expected }
      else t
  { t1 with next_expected := to_int (seq + 1) }

/-- The tracker variables as `rx_loop` initialises them.  `gap_start` is not
initialised in the source, so its initial value is a parameter. -/
def tracker_init (gap_start : Int) : Tracker :=
  { next_expected := 0, in_gap := 0, gap_start := gap_start, error := [],
    error_count := 0 }

/-- Feeding a stream of observed values to the gap tracker, one per receive
event, from left to right. -/
def feed (t : Tracker) (seqs : List Nat) : Tracker :=
  seqs.foldl rx_loop_track t

/-! ## Events, driver ring and loop state -/

/-- An event returned by `ef_eventq_poll`, with what `rx_loop` reads from it.
For `EF_EVENT_TYPE_RX`: the `SOP` and `CONT` flags, the descriptor id
`EF_EVENT_RX_RQ_ID`, and the `int` stored at the payload offset of the buffer
with that id when the event is handled. -/
inductive Event where
  | rx (sop cont : Int) (rq_id : Nat) (payload : Int)
  | rx_discard (rq_id : Nat)
  | other
deriving DecidableEq, Repr

/-- State of `rx_loop` between events: the tracker, the global `remain`, the
local `n_recv_queued`, the poll counters, and the receive ring of the driver
(`ring_pending`: descriptors written by `ef_vi_receive_init` and not yet
pushed; `ring_posted`: descriptors pushed to the hardware and not completed). -/
structure LoopState where
  trk : Tracker
  remain : Int
  n_recv_queued : Int
  empty_polls : Int
  nonempty_polls : Int
  ring_pending : List Nat
  ring_posted : List Nat
deriving DecidableEq, Repr

/-- Modelled from the spec: `ef_vi_receive_init` of the ef_vi library (not part
of this repository's sources), the `post_receive(device_address, slot_id)`
operation: the slot joins the descriptors awaiting the next commit.  The ring is
taken to have room for all `N_BUFS` descriptors, so the call does not fail. -/
def ef_vi_receive_init (s : LoopState) (buf_id : Nat) : LoopState :=
  { s with ring_pending := s.ring_pending ++ [buf_id] }

/-- Modelled from the spec: `ef_vi_receive_push` of the ef_vi library, the
`commit_posted()` operation: every pending descriptor becomes visible to the
hardware. -/
def ef_vi_receive_push (s : LoopState) : LoopState :=
  { s with ring_posted := s.ring_posted ++ s.ring_pending, ring_pending := [] }

/-- Modelled from the spec: a completion event for slot `rq_id` hands the slot
back to the application, so the driver no longer holds it. -/
def ring_complete (s : LoopState) (rq_id : Nat) : LoopState :=
  { s with ring_posted := s.ring_posted.erase rq_id }

/-- How a run of `rx_loop` ends. -/
inductive Outcome where
  /-- `exit(1)` from a failed `TEST` or from the sequence range check. -/
  | exit_failure
  /-- `printf("all packets received\n"); goto done;` -/
  | all_received
  /-- `printf("receiver finished with errors, %d packets lost (%.3f%%)\n", ...)`
  followed by `report_errors(error)`: the two printed numbers and the report.
  `percent` is the decimal printed by `%.3f`. -/
  | finished_with_errors (lost : Int) (percent : ℚ) (report : Report)
deriving DecidableEq

/-- Result of a piece of the loop: still running, or ended in the given state. -/
inductive Step where
  | running (s : LoopState)
  | done (o : Outcome) (s : LoopState)
deriving DecidableEq

/-- The loop state carried by a step result. -/
def Step.state : Step → LoopState
  | .running s => s
  | .done _ s => s

/-- The body of the `switch` in `rx_loop` for one event (lines 173-226). -/
def handle_event (cfg_iter : Int) (s : LoopState) : Event → Step
  | .rx sop cont buf_id payload =>
    let s := ring_complete s buf_id
    if sop ≠ 1 then .done .exit_failure s
    else if cont ≠ 0 then .done .exit_failure s
    else
      let seq : Nat := to_unsigned payload
      if seq ≥ to_unsigned cfg_iter then .done .exit_failure s
      else
        let s : LoopState := { s with trk := rx_loop_track s.trk seq }
        let s : LoopState := { s with remain := s.remain - 1 }
        if s.remain ≤ 0 then .done .all_received s
        else if seq = to_unsigned (cfg_iter - 1) then
          .done (.finished_with_errors s.remain
                  (loss_percent s.remain cfg_iter)
                  (report_errors s.trk.error_count s.trk.error)) s
        else
          let s := ef_vi_receive_init s buf_id
          .running { s with n_recv_queued := s.n_recv_queued + 1 }
  | .rx_discard rq_id => .running (ring_complete s rq_id)
  | .other => .running s

/-- The `for` loop over the events of one poll (line 172). -/
def handle_events (cfg_iter : Int) (s : LoopState) : List Event → Step
  | [] => .running s
  | ev :: rest =>
    match handle_event cfg_iter s ev with
    | .running s1 => handle_events cfg_iter s1 rest
    | .done o s1 => .done o s1

/-- The push check that closes each iteration of the `while` loop
(lines 228-231). -/
def push_if_due (s : LoopState) : LoopState :=
  if s.n_recv_queued ≥ 16 then
    { ef_vi_receive_push s with n_recv_queued := 0 }
  else s

/-- The poll counters update of lines 166-170 for a poll that returned `n_ev`
events. -/
def count_poll (s : LoopState) (n_ev : Nat) : LoopState :=
  if n_ev ≠ 0 then { s with nonempty_polls := s.nonempty_polls + 1 }
  else { s with empty_polls := s.empty_polls + 1 }

/-- One iteration of the `while (1)` loop, for the batch `evs` returned by
`ef_eventq_poll`. -/
def poll_iteration (cfg_iter : Int) (s : LoopState) (evs : List Event) : Step :=
  match handle_events cfg_iter (count_poll s evs.length) evs with
  | .running s1 => .running (push_if_due s1)
  | .done o s1 => .done o s1

/-- The `while (1)` loop over the successive polled batches. -/
def rx_loop_from (cfg_iter : Int) (s : LoopState) : List (List Event) → Step
  | [] => .running s
  | evs :: rest =>
    match poll_iteration cfg_iter s evs with
    | .running s1 => rx_loop_from cfg_iter s1 rest
    | .done o s1 => .done o s1

/-- The state of `rx_loop` on entry to the `while` loop: locals initialised,
`remain = cfg_iter`, all `N_BUFS` buffers posted and pushed (lines 148-160). -/
def rx_loop_init (cfg_iter : Int) (gap_start : Int) : LoopState :=
  ef_vi_receive_push
    ((List.range N_BUFS).foldl ef_vi_receive_init
      { trk := tracker_init gap_start, remain := cfg_iter, n_recv_queued := 0,
        empty_polls := 0, nonempty_polls := 0, ring_pending := [], ring_posted := [] })

/-- `rx_loop` run on the polled batches `polls`. -/
def rx_loop (cfg_iter : Int) (gap_start : Int) (polls : List (List Event)) : Step :=
  rx_loop_from cfg_iter (rx_loop_init cfg_iter gap_start) polls

/-! ## Specification-side definitions -/

/-- Size of a gap as the specification words it: the number of sequence numbers
in the closed interval `[start, end]`. -/
def gap_count (g : Gap) : Int := g.end_ - g.start + 1

/-- Distance between the two recorded ends of a gap, `end - start`. -/
def gap_span (g : Gap) : Int := g.end_ - g.start

/-- The reporter as the specification words it, for a given notion `size_of` of
gap size: the gaps taken oldest first, each printed as its size item, every gap
but the oldest preceded by the stride from the end of the gap before it.
`prev` is the gap printed just before. -/
def emit_after (size_of : Gap → Int) (prev : Gap) : List Gap → List Item
  | [] => []
  | g :: rest =>
    Item.stride (g.start - prev.end_) :: Item.size (size_of g) :: emit_after size_of g rest

/-- Specification-side reporter over the gaps listed oldest first. -/
def emit_oldest_first (size_of : Gap → Int) : List Gap → List Item
  | [] => []
  | g :: rest => Item.size (size_of g) :: emit_after size_of g rest

/-- `g` successive calls of `note_gap`, one per closed gap, starting from an
empty list and `error_count = 0`. -/
def note_gaps (gaps : List Gap) : Int × List Gap :=
  gaps.foldl (fun acc g => note_gap acc.1 acc.2 g.start g.end_) (0, [])

/-- Whether a printed item is a size item. -/
def Item.is_size : Item → Bool
  | .size _ => true
  | .stride _ => false

/-- Number of gaps printed in detail: one size item is printed per gap. -/
def Report.shown (r : Report) : Int := ((r.items.filter Item.is_size).length : Int)

/-- The residual count of the report, `0` when the line is not printed. -/
def Report.residual (r : Report) : Int := r.more_not_shown.getD 0

/-- The size figures of a report, in printing order. -/
def sizes_of : List Item → List Int
  | [] => []
  | .size d :: rest => d :: sizes_of rest
  | .stride _ :: rest => sizes_of rest

/-- What is known of one recorded gap relative to the values `seen` so far. -/
structure GapFacts (seen : List Nat) (g : Gap) : Prop where
  lt : g.start < g.end_
  start_nonneg : 0 ≤ g.start
  start_unseen : ∀ x ∈ seen, (x : Int) ≠ g.start
  start_first : g.start = 0 ∨ ∃ x ∈ seen, (x : Int) + 1 = g.start
  end_seen : ∃ x ∈ seen, (x : Int) = g.end_
  end_succ_seen : ∃ x ∈ seen, (x : Int) = g.end_ + 1

/-- Invariant of the gap tracker after the values `seen` have been fed. -/
structure TrackInv (seen : List Nat) (t : Tracker) : Prop where
  exp_lo : 0 ≤ t.next_expected
  exp_hi : t.next_expected < 2147483648
  seen_lt : ∀ x ∈ seen, (x : Int) < t.next_expected
  exp_pred : t.next_expected = 0 ∨ ∃ x ∈ seen, (x : Int) + 1 = t.next_expected
  gaps : ∀ g ∈ t.error, GapFacts seen g
  open_gap : t.in_gap ≠ 0 →
    0 ≤ t.gap_start ∧ t.gap_start + 1 < t.next_expected ∧
    (∀ x ∈ seen, (x : Int) ≠ t.gap_start) ∧
    (t.gap_start = 0 ∨ ∃ x ∈ seen, (x : Int) + 1 = t.gap_start) ∧
    ∀ g ∈ t.error, g.end_ < t.gap_start
  sorted : t.error.Pairwise (fun g older => older.end_ < g.start)
  count_lo : 0 ≤ t.error_count
  stored : (t.error.length : Int) = min t.error_count 19

/-- The part of a step result that the gap tracker, the countdown and the
outcome depend on: the outcome if the run has ended, the tracker variables and
`remain`. -/
def Step.core : Step → Option Outcome × Tracker × Int
  | .running s => (none, s.trk, s.remain)
  | .done o s => (some o, s.trk, s.remain)

/-- Number of values of `[0, N)` that do not occur in the stream `xs`. -/
def unobserved (N : Nat) (xs : List Nat) : Nat :=
  ((List.range N).filter (fun v => decide (v ∉ xs))).length

/-- A well-framed receive event (`SOP = 1`, `CONT = 0`) on slot `ids x` whose
payload holds the sequence number `x`. -/
def rx_event (ids : Nat → Nat) (x : Nat) : Event :=
  Event.rx 1 0 (ids x) (x : Int)

/-- The pending counter of the loop agrees with the driver ring. -/
def queued_ok (s : LoopState) : Prop :=
  (s.ring_pending.length : Int) = s.n_recv_queued

/-- Every buffer slot is held by the driver exactly once, posted or pending. -/
def ring_ok (s : LoopState) : Prop :=
  (s.ring_posted ++ s.ring_pending).Perm (List.range N_BUFS)

/-- The gaps closed by the stream `0,1, 3,4, 6,7, ...`: the `k`-th is recorded as
`[3k+2, 3k+3]`. -/
def twenty_gaps : List Gap :=
  (List.range 20).map (fun k => { start := 3 * (k : Int) + 2, end_ := 3 * (k : Int) + 3 })

/-- The stream `0,1, 3,4, 6,7, ..., 60,61`: every third value is lost. -/
def two_of_three : List Nat :=
  (List.range 21).flatMap (fun k => [3 * k, 3 * k + 1])

/-! ## Theorems -/

set_option maxRecDepth 100000

/-! ### Machine integers and the tracking block -/

/-- `seq + 1` converted to `int` is the successor when it fits in an `int`. -/
theorem to_int_succ (n : Nat) (h : (n : Int) + 1 < 2147483648) : to_int (n + 1) = n + 1 := by
  unfold to_int; split <;> omega

/-- `seq - 1` (unsigned, wrapping at 0) converted to `int` is the predecessor, `-1` for `seq = 0`. -/
theorem to_int_pred (n : Nat) (h : (n : Int) < 2147483648) :
    to_int (n + 4294967295) = n - 1 := by
  unfold to_int; split <;> omega

/-- For a value below `2 ^ 31` the unsigned comparison with an `int` is equality of integers. -/
theorem eq_to_unsigned_iff (n : Nat) (e : Int) (hn : (n : Int) < 2147483648)
    (h1 : -2147483648 ≤ e) (h2 : e < 2147483648) :
    n = to_unsigned e ↔ (n : Int) = e := by
  unfold to_unsigned; omega

/-- Case analysis of the tracking block for an in-range value. -/
theorem track_cases (cfg_iter : Int) (t : Tracker) (seq : Nat)
    (hcfg : cfg_iter < 2147483648) (hseq : (seq : Int) < cfg_iter)
    (hlo : -2147483648 ≤ t.next_expected) (hhi : t.next_expected < 2147483648) :
    ((seq : Int) = t.next_expected → t.in_gap ≠ 0 →
      rx_loop_track t seq =
        { next_expected := seq + 1, in_gap := 0, gap_start := t.gap_start,
          error := if t.error_count + 1 < MAX_ERROR_DETAILS
                   then { start := t.gap_start, end_ := seq - 1 } :: t.error
                   else t.error,
          error_count := t.error_count + 1 }) ∧
    ((seq : Int) = t.next_expected → t.in_gap = 0 →
      rx_loop_track t seq = { t with next_expected := seq + 1 }) ∧
    ((seq : Int) ≠ t.next_expected → t.in_gap = 0 →
      rx_loop_track t seq =
        { t with next_expected := seq + 1, in_gap := 1, gap_start := t.next_expected }) ∧
    ((seq : Int) ≠ t.next_expected → t.in_gap ≠ 0 →
      rx_loop_track t seq = { t with next_expected := seq + 1 }) ∧
    (rx_loop_track t seq).next_expected = seq + 1 := by
  have hs : to_int (seq + 1) = seq + 1 := to_int_succ seq (by omega)
  have hp : to_int (seq + 4294967295) = seq - 1 := to_int_pred seq (by omega)
  have he := eq_to_unsigned_iff seq t.next_expected (by omega) hlo hhi
  refine ⟨?_, ?_, ?_, ?_, ?_⟩
  · intro h1 h2
    have h1' := he.mpr h1
    simp only [rx_loop_track, note_gap, hs, hp]
    rw [if_pos h1', if_pos h2]
    split <;> rfl
  · intro h1 h2
    have h1' := he.mpr h1
    simp only [rx_loop_track, hs]
    rw [if_pos h1', if_neg (by simpa using h2)]
  · intro h1 h2
    have h1' : ¬ seq = to_unsigned t.next_expected := fun h => h1 (he.mp h)
    simp only [rx_loop_track, hs]
    rw [if_neg h1', if_pos h2]
  · intro h1 h2
    have h1' : ¬ seq = to_unsigned t.next_expected := fun h => h1 (he.mp h)
    simp only [rx_loop_track, hs]
    rw [if_neg h1', if_neg h2]
  · simp only [rx_loop_track, hs]

/-- C1: for every tracker state (with `next_expected` a C `int`) and every in-range
observed value `seq` (`0 ≤ seq < cfg_iter`, `cfg_iter` a C `int`), one receive step
does exactly this.  If `seq == expected` and `in_gap` is set, the gap is closed
as `[gap_start, seq - 1]`, counted, pushed on the gap list while the incremented
count is below the retention cap, and `in_gap` is cleared.  If `seq == expected`
and `in_gap` is clear, the gap state is unchanged.  If `seq != expected` and
`in_gap` is clear, `in_gap` is set and `gap_start = expected`.  If
`seq != expected` and `in_gap` is set, `in_gap` and `gap_start` are unchanged.
In every case the new expected value is `seq + 1`. -/
theorem rx_loop_track_step (cfg_iter : Int) (t : Tracker) (seq : Nat)
    (hcfg : cfg_iter < 2147483648) (hseq : (seq : Int) < cfg_iter)
    (hlo : -2147483648 ≤ t.next_expected) (hhi : t.next_expected < 2147483648) :
    ((seq : Int) = t.next_expected → t.in_gap ≠ 0 →
      rx_loop_track t seq =
        { next_expected := seq + 1, in_gap := 0, gap_start := t.gap_start,
          error := if t.error_count + 1 < MAX_ERROR_DETAILS
                   then { start := t.gap_start, end_ := seq - 1 } :: t.error
                   else t.error,
          error_count := t.error_count + 1 }) ∧
    ((seq : Int) = t.next_expected → t.in_gap = 0 →
      rx_loop_track t seq = { t with next_expected := seq + 1 }) ∧
    ((seq : Int) ≠ t.next_expected → t.in_gap = 0 →
      rx_loop_track t seq =
        { t with next_expected := seq + 1, in_gap := 1, gap_start := t.next_expected }) ∧
    ((seq : Int) ≠ t.next_expected → t.in_gap ≠ 0 →
      rx_loop_track t seq = { t with next_expected := seq + 1 }) ∧
    (rx_loop_track t seq).next_expected = seq + 1 :=
  track_cases cfg_iter t seq hcfg hseq hlo hhi

/-- The C1 step at a concrete state: an open gap starting at 3 is closed by the
value 7 as `[3, 6]`. -/
theorem rx_loop_track_step_witness :
    rx_loop_track { next_expected := 7, in_gap := 1, gap_start := 3, error := [], error_count := 0 } 7 =
      { next_expected := 8, in_gap := 0, gap_start := 3,
        error := [{ start := 3, end_ := 6 }], error_count := 1 } := by
  have h := (rx_loop_track_step 10
    { next_expected := 7, in_gap := 1, gap_start := 3, error := [], error_count := 0 } 7
    (by decide) (by decide) (by decide) (by decide)).1 rfl (by decide)
  simpa [MAX_ERROR_DETAILS] using h

/-! ### Floating point: the printed percentage -/

/-- Rounding to an integer moves a value by at most one half. -/
theorem abs_round_half_even_sub (x : ℚ) : |(round_half_even x : ℚ) - x| ≤ 1 / 2 := by
  have h1 : (⌊x⌋ : ℚ) ≤ x := Int.floor_le x
  have h2 : x < (⌊x⌋ : ℚ) + 1 := Int.lt_floor_add_one x
  unfold round_half_even
  rw [abs_le]
  split_ifs with a b c
  · constructor <;> linarith
  · push_cast; constructor <;> linarith
  · push_neg at a b
    constructor <;> linarith
  · push_neg at a b
    push_cast; constructor <;> linarith

/-- A value strictly within one half of an integer rounds to it. -/
theorem round_half_even_eq (x : ℚ) (k : Int) (h : |x - k| < 1 / 2) : round_half_even x = k := by
  have hr := abs_round_half_even_sub x
  rw [abs_lt] at h
  rw [abs_le] at hr
  have h1 : ((round_half_even x : ℚ) - k) < 1 := by linarith
  have h2 : -1 < ((round_half_even x : ℚ) - k) := by linarith
  have h3 : (round_half_even x - k : Int) < 1 := by exact_mod_cast h1
  have h4 : -1 < (round_half_even x - k : Int) := by exact_mod_cast h2
  omega

/-- Rounding to binary64 has relative error at most `2 ^ (-53)`. -/
theorem abs_to_double_sub (x : ℚ) : |to_double x - x| ≤ |x| / 2 ^ 53 := by
  unfold to_double
  split_ifs with h0
  · simp [h0]
  · have hx : 0 < |x| := abs_pos.mpr h0
    have hlog : (2 : ℚ) ^ (Int.log 2 |x|) ≤ |x| := by
      have := Int.zpow_log_le_self (R := ℚ) (b := 2) (by norm_num) hx
      simpa using this
    set e := Int.log 2 |x| with he
    have hu : (0 : ℚ) < 2 ^ (e - 52) := by positivity
    have hr := abs_round_half_even_sub (x / 2 ^ (e - 52))
    have key : (round_half_even (x / 2 ^ (e - 52)) : ℚ) * 2 ^ (e - 52) - x
        = ((round_half_even (x / 2 ^ (e - 52)) : ℚ) - x / 2 ^ (e - 52)) * 2 ^ (e - 52) := by
      field_simp
    rw [key, abs_mul, abs_of_pos hu]
    have h53 : (2 : ℚ) ^ (e - 52) = 2 ^ e / 2 ^ 52 := by
      rw [zpow_sub₀ (by norm_num)]; norm_num
    calc |(round_half_even (x / 2 ^ (e - 52)) : ℚ) - x / 2 ^ (e - 52)| * 2 ^ (e - 52)
        ≤ 1 / 2 * 2 ^ (e - 52) := by gcongr
      _ = 2 ^ e / 2 ^ 53 := by rw [h53]; ring
      _ ≤ |x| / 2 ^ 53 := by gcongr

/-- Printing with `%.3f` moves a value by at most half a unit of the third decimal. -/
theorem abs_printf_3f_sub (d : ℚ) : |printf_3f d - d| ≤ 1 / 2000 := by
  unfold printf_3f
  have hr := abs_round_half_even_sub (d * 1000)
  rw [abs_le] at hr ⊢
  constructor
  · have := hr.1; linarith
  · have := hr.2; linarith


/-- Two successive binary64 divisions stay within `10 ^ (-12)` of the exact
percentage when `0 < L ≤ N`. -/
theorem double_quotient_bound (L N : ℚ) (hL : 0 < L) (hLN : L ≤ N) :
    |double_div L (double_div N 100) - 100 * L / N| ≤ 1 / 10 ^ 12 := by
  have hN : 0 < N := lt_of_lt_of_le hL hLN
  have ha : 0 < N / 100 := by positivity
  have h1 := abs_to_double_sub (N / 100)
  rw [abs_of_pos ha, abs_le] at h1
  set d1 := double_div N 100 with hd1
  have hd1' : d1 = to_double (N / 100) := rfl
  rw [← hd1'] at h1
  have hd1lo : N / 100 * (1 - 1 / 2 ^ 53) ≤ d1 := by linarith [h1.1]
  have hd1hi : d1 ≤ N / 100 * (1 + 1 / 2 ^ 53) := by linarith [h1.2]
  have hd1pos : 0 < d1 := lt_of_lt_of_le (by positivity) hd1lo
  have hq0 : 0 < L / d1 := by positivity
  have h2 := abs_to_double_sub (L / d1)
  rw [abs_of_pos hq0, abs_le] at h2
  have hd2 : double_div L d1 = to_double (L / d1) := rfl
  rw [← hd2] at h2
  have hqd0 : L / d1 * d1 = L := by field_simp
  generalize double_div L d1 = d2 at h2 ⊢
  generalize L / d1 = q at hq0 h2 hqd0
  have hp0 : 0 < 100 * L / N := by positivity
  have hp100 : 100 * L / N ≤ 100 := by
    rw [div_le_iff₀ hN]; linarith
  have hpa : 100 * L / N * (N / 100) = L := by field_simp
  generalize 100 * L / N = p at hp0 hp100 hpa ⊢
  -- bounds on q
  have hqhi : q * (1 - 1 / 2 ^ 53) ≤ p := by
    have h3 : q * (N / 100 * (1 - 1 / 2 ^ 53)) ≤ q * d1 :=
      mul_le_mul_of_nonneg_left hd1lo hq0.le
    have h' : (q * (1 - 1 / 2 ^ 53)) * (N / 100) ≤ p * (N / 100) := by linarith
    exact le_of_mul_le_mul_right h' ha
  have hqlo : p ≤ q * (1 + 1 / 2 ^ 53) := by
    have h3 : q * d1 ≤ q * (N / 100 * (1 + 1 / 2 ^ 53)) :=
      mul_le_mul_of_nonneg_left hd1hi hq0.le
    have h' : p * (N / 100) ≤ (q * (1 + 1 / 2 ^ 53)) * (N / 100) := by linarith
    exact le_of_mul_le_mul_right h' ha
  have hqle : q ≤ 101 := by
    have h3 : q * (1 - 1 / 2 ^ 53) ≤ 100 := le_trans hqhi hp100
    norm_num at h3 ⊢
    linarith
  have hnum : (101 : ℚ) / 2 ^ 53 + 101 / 2 ^ 53 ≤ 1 / 10 ^ 12 := by norm_num
  have hq53 : q / 2 ^ 53 ≤ 101 / 2 ^ 53 := by gcongr
  have e1 : q * (1 - 1 / 2 ^ 53) = q - q / 2 ^ 53 := by ring
  have e2 : q * (1 + 1 / 2 ^ 53) = q + q / 2 ^ 53 := by ring
  rw [e1] at hqhi
  rw [e2] at hqlo
  rw [abs_le]
  constructor
  · linarith [h2.1]
  · linarith [h2.2]

/-- The printed percentage is within half a unit of the third decimal, plus the
`double` rounding, of the exact percentage. -/
theorem loss_percent_bound (L N : Int) (hL : 0 < L) (hLN : L ≤ N) :
    |loss_percent L N - 100 * (L : ℚ) / (N : ℚ)| ≤ 1 / 2000 + 1 / 10 ^ 12 := by
  have h1 := double_quotient_bound (L : ℚ) (N : ℚ) (by exact_mod_cast hL) (by exact_mod_cast hLN)
  have h2 := abs_printf_3f_sub (double_div (L : ℚ) (double_div (N : ℚ) 100))
  unfold loss_percent
  rw [abs_le] at h1 h2 ⊢
  constructor <;> linarith [h1.1, h1.2, h2.1, h2.2]

/-- The printed percentage is a decimal with three fractional digits. -/
theorem loss_percent_decimal (L N : Int) : ∃ k : Int, loss_percent L N = (k : ℚ) / 1000 :=
  ⟨_, rfl⟩

/-- The printed percentage is the three-digit decimal `k / 1000` as soon as the
exact percentage is within `0.0004` of it. -/
theorem loss_percent_eq (L N k : Int) (hL : 0 < L) (hLN : L ≤ N)
    (hk : |100 * (L : ℚ) / (N : ℚ) - (k : ℚ) / 1000| ≤ 4 / 10000) :
    loss_percent L N = (k : ℚ) / 1000 := by
  have h1 := double_quotient_bound (L : ℚ) (N : ℚ) (by exact_mod_cast hL) (by exact_mod_cast hLN)
  unfold loss_percent printf_3f
  rw [round_half_even_eq _ k]
  rw [abs_le] at h1 hk
  rw [abs_lt]
  constructor <;> linarith [h1.1, h1.2, hk.1, hk.2]

/-- The percentage printed for 2 lost of 3 is `66.667`. -/
theorem loss_percent_two_of_three : loss_percent 2 3 = 66667 / 1000 := by
  have := loss_percent_eq 2 3 66667 (by norm_num) (by norm_num) (by norm_num [abs_le])
  simpa using this

/-- The percentage printed for 37 lost of 1000 is `3.700`. -/
theorem loss_percent_37_of_1000 : loss_percent 37 1000 = 37 / 10 := by
  have := loss_percent_eq 37 1000 3700 (by norm_num) (by norm_num) (by norm_num [abs_le])
  rw [this]; norm_num

/-! ### Reporter and `note_gap` accounting -/

/-- Appending one more gap to the tail printed by `emit_after`. -/
theorem emit_after_snoc (f : Gap → Int) (e n : Gap) : ∀ (l : List Gap) (p : Gap),
    (p :: l).getLast? = some n →
    emit_after f p (l ++ [e]) =
      emit_after f p l ++ [Item.stride (e.start - n.end_), Item.size (f e)]
  | [], p, h => by
    simp at h
    subst h
    simp [emit_after]
  | g :: l, p, h => by
    have h' : (g :: l).getLast? = some n := by
      rw [List.getLast?_cons_cons] at h; exact h
    simp [emit_after, emit_after_snoc f e n l g h']

/-- Appending one more (newest) gap to the specification-side reporter. -/
theorem emit_oldest_first_snoc (f : Gap → Int) (e n : Gap) (l : List Gap)
    (h : l.getLast? = some n) :
    emit_oldest_first f (l ++ [e]) =
      emit_oldest_first f l ++ [Item.stride (e.start - n.end_), Item.size (f e)] := by
  cases l with
  | nil => simp at h
  | cons p l => simp [emit_oldest_first, emit_after_snoc f e n l p h]

/-- The recursive reporter prints what the oldest-first reporter prints with `gap_span` as size. -/
theorem report_errors_internal_eq_emit : ∀ error : List Gap,
    report_errors_internal error = emit_oldest_first gap_span error.reverse
  | [] => rfl
  | [e] => by simp [report_errors_internal, emit_oldest_first, emit_after, gap_span]
  | e :: n :: m => by
    have ih := report_errors_internal_eq_emit (n :: m)
    have hl : (n :: m).reverse.getLast? = some n := by simp
    rw [List.reverse_cons, emit_oldest_first_snoc gap_span e n _ hl, ← ih]
    simp [report_errors_internal, gap_span]

/-- The size figures of two printed sequences put together. -/
theorem sizes_of_append (a b : List Item) : sizes_of (a ++ b) = sizes_of a ++ sizes_of b := by
  induction a with
  | nil => rfl
  | cons i a ih => cases i <;> simp [sizes_of, ih]

/-- The size figures printed are `end - start`, oldest gap first. -/
theorem sizes_of_report : ∀ error : List Gap,
    sizes_of (report_errors_internal error) = error.reverse.map (fun g => g.end_ - g.start)
  | [] => rfl
  | e :: next => by
    have ih := sizes_of_report next
    cases next with
    | nil => simp [report_errors_internal, sizes_of]
    | cons n m =>
      rw [report_errors_internal, sizes_of_append, ih]
      simp [sizes_of]

/-- One size item is printed per stored gap. -/
theorem shown_report_errors (c : Int) : ∀ error : List Gap,
    (report_errors c error).shown = error.length
  | [] => rfl
  | e :: next => by
    have ih := shown_report_errors c next
    simp only [Report.shown, report_errors] at ih ⊢
    cases next with
    | nil => simp [report_errors_internal, Item.is_size]
    | cons n m =>
      rw [report_errors_internal, List.filter_append, List.length_append, Nat.cast_add, ih]
      simp [Item.is_size]

/-- Count and stored length after a run of `note_gap` calls from any consistent start. -/
theorem note_gaps_fold (gaps : List Gap) : ∀ (c : Int) (l : List Gap),
    0 ≤ c → (l.length : Int) = min c 19 →
    (gaps.foldl (fun acc g => note_gap acc.1 acc.2 g.start g.end_) (c, l)).1 = c + gaps.length ∧
    ((gaps.foldl (fun acc g => note_gap acc.1 acc.2 g.start g.end_) (c, l)).2.length : Int)
      = min (c + gaps.length) 19 := by
  induction gaps with
  | nil => intro c l _ hl; simpa using hl
  | cons g gaps ih =>
    intro c l hc hl
    rw [List.foldl_cons]
    by_cases h : c + 1 < MAX_ERROR_DETAILS
    · have hn : note_gap c l g.start g.end_ = (c + 1, ⟨g.start, g.end_⟩ :: l) := by
        simp [note_gap, h]
      simp only [hn]
      have := ih (c + 1) (⟨g.start, g.end_⟩ :: l) (by omega)
        (by simp only [MAX_ERROR_DETAILS] at h; simp only [List.length_cons]; push_cast; omega)
      simp only [List.length_cons]; push_cast
      constructor
      · omega
      · omega
    · have hn : note_gap c l g.start g.end_ = (c + 1, l) := by
        simp [note_gap, h]
      simp only [hn]
      have := ih (c + 1) l (by omega)
        (by simp only [MAX_ERROR_DETAILS] at h; omega)
      simp only [List.length_cons]; push_cast
      constructor
      · omega
      · omega

/-- Accounting of the report after any number of calls of `note_gap`: the total
count is the number of calls; printed gaps plus residual equal it below 20 calls
and fall one short from 20 calls on. -/
theorem note_gaps_report_accounting (gaps : List Gap) :
    (note_gaps gaps).1 = gaps.length ∧
    (report_errors (note_gaps gaps).1 (note_gaps gaps).2).shown
        + (report_errors (note_gaps gaps).1 (note_gaps gaps).2).residual
      = if gaps.length < 20 then (gaps.length : Int) else (gaps.length : Int) - 1 := by
  have h := note_gaps_fold gaps 0 [] (by omega) (by simp)
  rw [shown_report_errors]
  unfold note_gaps
  refine ⟨by simpa using h.1, ?_⟩
  rw [h.2, h.1]
  simp only [Report.residual, report_errors, MAX_ERROR_DETAILS]
  split_ifs <;> simp <;> omega

/-! ### Invariant of the gap tracker -/

/-- The facts about a recorded gap survive the feed of a larger value. -/
theorem GapFacts.mono {seen : List Nat} {g : Gap} (h : GapFacts seen g) (x : Nat)
    (hx : g.start < x) : GapFacts (seen ++ [x]) g := by
  refine ⟨h.lt, h.start_nonneg, ?_, ?_, ?_, ?_⟩
  · intro y hy
    rcases List.mem_append.mp hy with hy | hy
    · exact h.start_unseen y hy
    · simp at hy; subst hy; omega
  · rcases h.start_first with h0 | ⟨y, hy, e⟩
    · exact Or.inl h0
    · exact Or.inr ⟨y, List.mem_append_left _ hy, e⟩
  · obtain ⟨y, hy, e⟩ := h.end_seen
    exact ⟨y, List.mem_append_left _ hy, e⟩
  · obtain ⟨y, hy, e⟩ := h.end_succ_seen
    exact ⟨y, List.mem_append_left _ hy, e⟩

/-- The invariant holds initially. -/
theorem trackInv_init (gap_start : Int) : TrackInv [] (tracker_init gap_start) := by
  refine ⟨by simp [tracker_init], by simp [tracker_init], by simp, Or.inl rfl,
    by simp [tracker_init], by simp [tracker_init], by simp [tracker_init],
    by simp [tracker_init], by simp [tracker_init]⟩

/-- The tracking block keeps the invariant when fed a value above all seen ones. -/
theorem trackInv_step {seen : List Nat} {t : Tracker} (inv : TrackInv seen t) (x : Nat)
    (hgt : ∀ p ∈ seen, p < x) (hx : (x : Int) + 1 < 2147483648) :
    TrackInv (seen ++ [x]) (rx_loop_track t x) := by
  have hge : t.next_expected ≤ x := by
    rcases inv.exp_pred with h0 | ⟨y, hy, e⟩
    · omega
    · have := hgt y hy; omega
  have step := track_cases ((x : Int) + 1) t x hx (by omega)
    (by have := inv.exp_lo; omega) inv.exp_hi
  have hgaps_start : ∀ g ∈ t.error, g.start < x := by
    intro g hg
    obtain ⟨y, hy, e⟩ := (inv.gaps g hg).end_seen
    have := hgt y hy
    have := (inv.gaps g hg).lt
    omega
  have hgaps_end : ∀ g ∈ t.error, g.end_ + 1 < t.next_expected := by
    intro g hg
    obtain ⟨y, hy, e⟩ := (inv.gaps g hg).end_succ_seen
    have := inv.seen_lt y hy
    omega
  have hxmem : x ∈ seen ++ [x] := by simp
  by_cases heq : (x : Int) = t.next_expected
  · by_cases hin : t.in_gap = 0
    · rw [step.2.1 heq hin]
      refine ⟨by simp; omega, by simp; omega, ?_, Or.inr ⟨x, hxmem, rfl⟩, ?_, ?_,
        inv.sorted, inv.count_lo, inv.stored⟩
      · intro y hy
        rcases List.mem_append.mp hy with hy | hy
        · have := hgt y hy; simp; omega
        · simp at hy; subst hy; simp
      · intro g hg
        exact (inv.gaps g hg).mono x (hgaps_start g hg)
      · intro h; exact absurd hin h
    · obtain ⟨o1, o2, o3, o4, o5⟩ := inv.open_gap hin
      rw [step.1 heq hin]
      have hnew : GapFacts (seen ++ [x]) { start := t.gap_start, end_ := (x : Int) - 1 } := by
        refine ⟨by simp; omega, o1, ?_, ?_, ?_, ⟨x, hxmem, by simp⟩⟩
        · intro y hy
          rcases List.mem_append.mp hy with hy | hy
          · exact o3 y hy
          · simp at hy; subst hy; simp; omega
        · rcases o4 with h0 | ⟨y, hy, e⟩
          · exact Or.inl h0
          · exact Or.inr ⟨y, List.mem_append_left _ hy, e⟩
        · rcases inv.exp_pred with h0 | ⟨y, hy, e⟩
          · omega
          · exact ⟨y, List.mem_append_left _ hy, by simp; omega⟩
      refine ⟨by simp; omega, by simp; omega, ?_, Or.inr ⟨x, hxmem, rfl⟩, ?_, ?_, ?_,
        by have := inv.count_lo; simp; omega, ?_⟩
      · intro y hy
        rcases List.mem_append.mp hy with hy | hy
        · have := hgt y hy; simp; omega
        · simp at hy; subst hy; simp
      · intro g hg
        simp only at hg
        split at hg
        · rcases List.mem_cons.mp hg with rfl | hg
          · exact hnew
          · exact (inv.gaps g hg).mono x (hgaps_start g hg)
        · exact (inv.gaps g hg).mono x (hgaps_start g hg)
      · intro h; simp at h
      · simp only
        split
        · exact List.pairwise_cons.mpr ⟨fun g hg => o5 g hg, inv.sorted⟩
        · exact inv.sorted
      · have := inv.stored
        have := inv.count_lo
        simp only [MAX_ERROR_DETAILS]
        split
        · simp only [List.length_cons]; push_cast; omega
        · omega
  · by_cases hin : t.in_gap = 0
    · rw [step.2.2.1 heq hin]
      refine ⟨by simp; omega, by simp; omega, ?_, Or.inr ⟨x, hxmem, rfl⟩, ?_, ?_,
        inv.sorted, inv.count_lo, inv.stored⟩
      · intro y hy
        rcases List.mem_append.mp hy with hy | hy
        · have := hgt y hy; simp; omega
        · simp at hy; subst hy; simp
      · intro g hg
        exact (inv.gaps g hg).mono x (hgaps_start g hg)
      · intro _
        refine ⟨inv.exp_lo, by simp; omega, ?_, ?_, ?_⟩
        · intro y hy
          rcases List.mem_append.mp hy with hy | hy
          · have := inv.seen_lt y hy; simp; omega
          · simp at hy; subst hy; simpa using heq
        · rcases inv.exp_pred with h0 | ⟨y, hy, e⟩
          · exact Or.inl h0
          · exact Or.inr ⟨y, List.mem_append_left _ hy, e⟩
        · intro g hg
          have := hgaps_end g hg
          simp; omega
    · obtain ⟨o1, o2, o3, o4, o5⟩ := inv.open_gap hin
      rw [step.2.2.2.1 heq hin]
      refine ⟨by simp; omega, by simp; omega, ?_, Or.inr ⟨x, hxmem, rfl⟩, ?_, ?_,
        inv.sorted, inv.count_lo, inv.stored⟩
      · intro y hy
        rcases List.mem_append.mp hy with hy | hy
        · have := hgt y hy; simp; omega
        · simp at hy; subst hy; simp
      · intro g hg
        exact (inv.gaps g hg).mono x (hgaps_start g hg)
      · intro _
        refine ⟨o1, by simp; omega, ?_, ?_, o5⟩
        · intro y hy
          rcases List.mem_append.mp hy with hy | hy
          · exact o3 y hy
          · simp at hy; subst hy; dsimp only; omega
        · rcases o4 with h0 | ⟨y, hy, e⟩
          · exact Or.inl h0
          · exact Or.inr ⟨y, List.mem_append_left _ hy, e⟩

/-- The invariant along a strictly increasing stream. -/
theorem trackInv_feed : ∀ (xs seen : List Nat) (t : Tracker), TrackInv seen t →
    xs.Pairwise (· < ·) → (∀ x ∈ xs, ∀ p ∈ seen, p < x) →
    (∀ x ∈ xs, (x : Int) + 1 < 2147483648) → TrackInv (seen ++ xs) (feed t xs)
  | [], seen, t, inv, _, _, _ => by simpa [feed] using inv
  | x :: xs, seen, t, inv, hinc, hgt, hb => by
    have hx := trackInv_step inv x (hgt x (List.mem_cons_self _ _)) (hb x (List.mem_cons_self _ _))
    have hinc' := List.pairwise_cons.mp hinc
    have := trackInv_feed xs (seen ++ [x]) (rx_loop_track t x) hx hinc'.2
      (by
        intro y hy p hp
        rcases List.mem_append.mp hp with hp | hp
        · exact hgt y (List.mem_cons_of_mem _ hy) p hp
        · simp at hp; subst hp; exact hinc'.1 y hy)
      (fun y hy => hb y (List.mem_cons_of_mem _ hy))
    simpa [feed] using this

/-- The invariant after a strictly increasing in-range stream fed from the initial state. -/
theorem trackInv_of_stream (cfg_iter gap_start : Int) (xs : List Nat)
    (hcfg : cfg_iter < 2147483648) (hinc : xs.Pairwise (· < ·))
    (hrange : ∀ x ∈ xs, (x : Int) < cfg_iter) :
    TrackInv xs (feed (tracker_init gap_start) xs) := by
  have := trackInv_feed xs [] (tracker_init gap_start) (trackInv_init gap_start) hinc
    (by simp) (fun x hx => by have := hrange x hx; omega)
  simpa using this

/-- A contiguous run fed to a tracker that is not in a gap only advances `next_expected`. -/
theorem feed_contiguous (v : Nat) : ∀ (n : Nat) (t : Tracker), t.next_expected = v →
    t.in_gap = 0 → (v : Int) + n < 2147483648 →
    feed t ((List.range n).map (· + v)) = { t with next_expected := (v : Int) + n }
  | 0, t, he, _, _ => by simp [feed, ← he]
  | n + 1, t, he, hin, hb => by
    have ih := feed_contiguous v n t he hin (by push_cast at hb; omega)
    rw [List.range_succ, List.map_append, feed, List.foldl_append]
    rw [feed] at ih
    rw [ih]
    have step := track_cases ((v : Int) + (n + 1)) { t with next_expected := (v : Int) + n }
      (n + v) (by push_cast at hb; omega) (by push_cast; omega) (by simp; omega) (by simp; omega)
    have := step.2.1 (by simp; omega) hin
    simp only [List.map_cons, List.map_nil, List.foldl_cons, List.foldl_nil]
    rw [this]
    simp; omega

/-- C6: for every strictly increasing stream of in-range sequence numbers fed to
the gap tracker from its initial state, at every point of the run (after any
number `k` of feeds) the recorded gap list, most recent first, has
`start ≤ end` in every gap, and every gap starts strictly after the end of the
next (older) gap in the list; the same holds against every older gap, so the
recorded intervals are pairwise disjoint and ascending in detection order. -/
theorem feed_gaps_sorted (cfg_iter gap_start : Int) (xs : List Nat) (k : Nat)
    (hcfg : cfg_iter < 2147483648) (hinc : xs.Pairwise (· < ·))
    (hrange : ∀ x ∈ xs, (x : Int) < cfg_iter) :
    (∀ g ∈ (feed (tracker_init gap_start) (xs.take k)).error, g.start ≤ g.end_) ∧
    List.Chain' (fun g older => older.end_ < g.start)
      (feed (tracker_init gap_start) (xs.take k)).error ∧
    List.Pairwise (fun g older => older.end_ < g.start)
      (feed (tracker_init gap_start) (xs.take k)).error := by
  have inv := trackInv_of_stream cfg_iter gap_start (xs.take k) hcfg
    (hinc.sublist (List.take_sublist k xs))
    (fun x hx => hrange x (List.mem_of_mem_take hx))
  exact ⟨fun g hg => le_of_lt (inv.gaps g hg).lt, List.Pairwise.chain' inv.sorted, inv.sorted⟩

/-- The C6 ordering on the stream `0,1,3,4,7,8,9` after six feeds: the two recorded
gaps are `[5,7]` (newer) and `[2,3]` (older). -/
theorem feed_gaps_sorted_witness :
    List.Pairwise (fun g older => older.end_ < g.start)
      (feed (tracker_init 0) ([0, 1, 3, 4, 7, 8, 9].take 6)).error ∧
    (feed (tracker_init 0) ([0, 1, 3, 4, 7, 8, 9].take 6)).error =
      [{ start := 5, end_ := 7 }, { start := 2, end_ := 3 }] :=
  ⟨(feed_gaps_sorted 10 0 [0, 1, 3, 4, 7, 8, 9] 6 (by decide) (by decide) (by decide)).2.2,
   by decide⟩

/-- The tracker after `0,1,2,3,4,10,11`. -/
theorem feed_example_closed (gap_start : Int) :
    feed (tracker_init gap_start) [0, 1, 2, 3, 4, 10, 11] =
      { next_expected := 12, in_gap := 0, gap_start := 5,
        error := [{ start := 5, end_ := 10 }], error_count := 1 } := by
  rfl

/-- The tracker after `0,1,2,3,4,10`. -/
theorem feed_example_open (gap_start : Int) :
    feed (tracker_init gap_start) [0, 1, 2, 3, 4, 10] =
      { next_expected := 11, in_gap := 1, gap_start := 5, error := [], error_count := 0 } := by
  rfl

/-- C2, as amended: for every strictly increasing stream of in-range sequence
numbers fed to the gap tracker from `expected = 0`, with fewer closed gaps than
the retention cap, every closed gap is recorded, and every recorded gap
`[start, end]` begins at a sequence number that was never observed and that
opens a missing run (`start = 0` or `start - 1` was observed), while `end` and
`end + 1` were both observed and `start < end`: the recorded end is the last
value observed before the value that closed the gap, not the last missing
one.  In particular, after `0,1,2,3,4,10` no gap is closed yet (a gap is open
with start 5), and feeding `0,1,2,3,4,10,11` followed by any contiguous
continuation `12, 13, ...` records exactly one gap, with start 5 and end 10,
closed when 11 is fed. -/
theorem feed_recorded_gaps (cfg_iter gap_start : Int) (xs : List Nat)
    (hcfg : cfg_iter < 2147483648) (hinc : xs.Pairwise (· < ·))
    (hrange : ∀ x ∈ xs, (x : Int) < cfg_iter)
    (hcap : (feed (tracker_init gap_start) xs).error_count < MAX_ERROR_DETAILS) :
    (((feed (tracker_init gap_start) xs).error.length : Int)
        = (feed (tracker_init gap_start) xs).error_count) ∧
    (∀ g ∈ (feed (tracker_init gap_start) xs).error,
        (∀ x ∈ xs, (x : Int) ≠ g.start) ∧
        (g.start = 0 ∨ ∃ x ∈ xs, (x : Int) + 1 = g.start) ∧
        g.start < g.end_ ∧
        (∃ x ∈ xs, (x : Int) = g.end_) ∧
        (∃ x ∈ xs, (x : Int) = g.end_ + 1)) ∧
    (feed (tracker_init gap_start) [0, 1, 2, 3, 4, 10]).error = [] ∧
    (feed (tracker_init gap_start) [0, 1, 2, 3, 4, 10]).in_gap = 1 ∧
    (feed (tracker_init gap_start) [0, 1, 2, 3, 4, 10]).gap_start = 5 ∧
    (∀ n : Nat, (n : Int) + 12 < 2147483648 →
      (feed (tracker_init gap_start)
        ([0, 1, 2, 3, 4, 10, 11] ++ (List.range n).map (· + 12))).error
        = [{ start := 5, end_ := 10 }]) := by
  have inv := trackInv_of_stream cfg_iter gap_start xs hcfg hinc hrange
  refine ⟨?_, ?_, ?_, ?_, ?_, ?_⟩
  · have := inv.stored
    have := inv.count_lo
    simp only [MAX_ERROR_DETAILS] at hcap
    omega
  · intro g hg
    have f := inv.gaps g hg
    exact ⟨f.start_unseen, f.start_first, f.lt, f.end_seen, f.end_succ_seen⟩
  · rw [feed_example_open]
  · rw [feed_example_open]
  · rw [feed_example_open]
  · intro n hn
    have hsplit : feed (tracker_init gap_start)
        ([0, 1, 2, 3, 4, 10, 11] ++ (List.range n).map (· + 12))
        = feed (feed (tracker_init gap_start) [0, 1, 2, 3, 4, 10, 11])
            ((List.range n).map (· + 12)) := by
      simp only [feed, List.foldl_append]
    rw [hsplit, feed_example_closed, feed_contiguous 12 n _ rfl rfl (by push_cast; omega)]

/-- The amended C2 statement applied to the stream `0,1,2,3,4,10,11` continued by
`12,13,14`. -/
theorem feed_recorded_gaps_witness :
    (feed (tracker_init 0) [0, 1, 2, 3, 4, 10, 11]).error_count < MAX_ERROR_DETAILS ∧
    (feed (tracker_init 0) ([0, 1, 2, 3, 4, 10, 11] ++ (List.range 3).map (· + 12))).error
        = [{ start := 5, end_ := 10 }] :=
  ⟨by decide,
   (feed_recorded_gaps 20 0 [0, 1, 2, 3, 4, 10, 11] (by decide) (by decide) (by decide)
      (by decide)).2.2.2.2.2 3 (by decide)⟩

/-- C2 fails as stated: after `0,1,2,3,4,10` no gap has been closed, and after
`0,1,2,3,4,10,11` the one recorded gap is `[5,10]`, which contains the observed
value 10 and is not `[5,9]`. -/
theorem feed_gap_not_closed_at_ten :
    (feed (tracker_init 0) [0, 1, 2, 3, 4, 10]).error = [] ∧
    (feed (tracker_init 0) [0, 1, 2, 3, 4, 10, 11]).error = [{ start := 5, end_ := 10 }] ∧
    (feed (tracker_init 0) [0, 1, 2, 3, 4, 10, 11]).error ≠ [{ start := 5, end_ := 9 }] ∧
    (10 : Nat) ∈ [0, 1, 2, 3, 4, 10, 11] := by
  decide

/-! ### The loop: tracker, countdown and outcome -/

/-- The core of an event step depends only on the tracker and `remain`. -/
theorem handle_event_core_congr (cfg_iter : Int) (s s' : LoopState) (e : Event)
    (ht : s.trk = s'.trk) (hr : s.remain = s'.remain) :
    (handle_event cfg_iter s e).core = (handle_event cfg_iter s' e).core := by
  cases e with
  | rx sop cont buf_id payload =>
    simp only [handle_event, ring_complete, ef_vi_receive_init, ht, hr]
    split_ifs <;> simp [Step.core]
  | rx_discard rq_id => simp [handle_event, ring_complete, Step.core, ht, hr]
  | other => simp [handle_event, Step.core, ht, hr]

/-- The core of a batch depends only on the tracker and `remain`. -/
theorem handle_events_core_congr (cfg_iter : Int) : ∀ (evs : List Event) (s s' : LoopState),
    s.trk = s'.trk → s.remain = s'.remain →
    (handle_events cfg_iter s evs).core = (handle_events cfg_iter s' evs).core
  | [], s, s', ht, hr => by simp [handle_events, Step.core, ht, hr]
  | e :: evs, s, s', ht, hr => by
    have h := handle_event_core_congr cfg_iter s s' e ht hr
    simp only [handle_events]
    cases h1 : handle_event cfg_iter s e with
    | running s1 =>
      cases h2 : handle_event cfg_iter s' e with
      | running s2 =>
        rw [h1, h2] at h
        simp only [Step.core, Prod.mk.injEq, true_and] at h
        exact handle_events_core_congr cfg_iter evs s1 s2 h.1 h.2
      | done o s2 => rw [h1, h2] at h; simp [Step.core] at h
    | done o s1 =>
      cases h2 : handle_event cfg_iter s' e with
      | running s2 => rw [h1, h2] at h; simp [Step.core] at h
      | done o2 s2 => rw [h1, h2] at h; simpa using h

/-- Handling a concatenation of events. -/
theorem handle_events_append (cfg_iter : Int) : ∀ (a b : List Event) (s : LoopState),
    handle_events cfg_iter s (a ++ b) =
      match handle_events cfg_iter s a with
      | .running s1 => handle_events cfg_iter s1 b
      | .done o s1 => .done o s1
  | [], b, s => by simp [handle_events]
  | e :: a, b, s => by
    simp only [List.cons_append, handle_events]
    cases handle_event cfg_iter s e with
    | running s1 => exact handle_events_append cfg_iter a b s1
    | done o s1 => rfl

/-- A batch of one event. -/
theorem handle_events_singleton (cfg_iter : Int) (s : LoopState) (e : Event) :
    handle_events cfg_iter s [e] = handle_event cfg_iter s e := by
  simp only [handle_events]
  cases handle_event cfg_iter s e <;> rfl

/-- The push check touches neither the tracker nor `remain`. -/
theorem push_if_due_trk (s : LoopState) :
    (push_if_due s).trk = s.trk ∧ (push_if_due s).remain = s.remain := by
  unfold push_if_due ef_vi_receive_push
  split <;> simp

/-- The poll counters touch neither the tracker nor `remain`. -/
theorem count_poll_trk (s : LoopState) (n : Nat) :
    (count_poll s n).trk = s.trk ∧ (count_poll s n).remain = s.remain := by
  unfold count_poll
  split <;> simp

/-- The tracker, the countdown and the outcome of the loop depend only on the
concatenation of the polled batches. -/
theorem rx_loop_from_core (cfg_iter : Int) : ∀ (polls : List (List Event)) (s : LoopState),
    (rx_loop_from cfg_iter s polls).core = (handle_events cfg_iter s polls.flatten).core
  | [], s => by simp [rx_loop_from, handle_events]
  | evs :: rest, s => by
    have hc := handle_events_core_congr cfg_iter evs (count_poll s evs.length) s
      (count_poll_trk s _).1 (count_poll_trk s _).2
    rw [List.flatten_cons, handle_events_append]
    simp only [rx_loop_from, poll_iteration]
    cases h1 : handle_events cfg_iter (count_poll s evs.length) evs with
    | running s1 =>
      cases h2 : handle_events cfg_iter s evs with
      | running s2 =>
        rw [h1, h2] at hc
        simp only [Step.core, Prod.mk.injEq, true_and] at hc
        simp only
        rw [rx_loop_from_core cfg_iter rest (push_if_due s1)]
        exact handle_events_core_congr cfg_iter _ _ _
          ((push_if_due_trk s1).1.trans hc.1) ((push_if_due_trk s1).2.trans hc.2)
      | done o s2 => rw [h1, h2] at hc; simp [Step.core] at hc
    | done o s1 =>
      cases h2 : handle_events cfg_iter s evs with
      | running s2 => rw [h1, h2] at hc; simp [Step.core] at hc
      | done o2 s2 => rw [h1, h2] at hc; simpa [rx_loop_from] using hc

/-- Tracker and countdown on entry to the loop. -/
theorem rx_loop_init_trk (cfg_iter gap_start : Int) :
    (rx_loop_init cfg_iter gap_start).trk = tracker_init gap_start ∧
    (rx_loop_init cfg_iter gap_start).remain = cfg_iter := by
  have h : ∀ (l : List Nat) (s : LoopState),
      (l.foldl ef_vi_receive_init s).trk = s.trk ∧
      (l.foldl ef_vi_receive_init s).remain = s.remain := by
    intro l
    induction l with
    | nil => intro s; simp
    | cons a l ih => intro s; simpa [ef_vi_receive_init] using ih (ef_vi_receive_init s a)
  simp only [rx_loop_init, ef_vi_receive_push]
  exact h _ _

/-- A non-negative `int` below `2 ^ 31` converts to itself. -/
theorem to_unsigned_natCast (x : Nat) (h : (x : Int) < 2147483648) :
    to_unsigned (x : Int) = x := by
  unfold to_unsigned; omega

/-- One in-range well-framed receive event. -/
theorem handle_event_rx_event (N : Nat) (ids : Nat → Nat) (s : LoopState) (x : Nat)
    (hN : (N : Int) < 2147483648) (hx : x < N) :
    (handle_event N s (rx_event ids x)).core =
      if s.remain - 1 ≤ 0 then
        (some Outcome.all_received, rx_loop_track s.trk x, s.remain - 1)
      else if x + 1 = N then
        (some (Outcome.finished_with_errors (s.remain - 1)
           (loss_percent (s.remain - 1) N)
           (report_errors (rx_loop_track s.trk x).error_count (rx_loop_track s.trk x).error)),
         rx_loop_track s.trk x, s.remain - 1)
      else (none, rx_loop_track s.trk x, s.remain - 1) := by
  have h1 : to_unsigned ((x : Nat) : Int) = x := to_unsigned_natCast x (by omega)
  have h2 : to_unsigned ((N : Nat) : Int) = N := to_unsigned_natCast N hN
  have h3 : to_unsigned ((N : Int) - 1) = N - 1 := by unfold to_unsigned; omega
  simp only [rx_event, handle_event, ring_complete, ef_vi_receive_init, h1, h2, h3]
  have hge : ¬ x ≥ N := by omega
  have hiff : (x = N - 1) ↔ (x + 1 = N) := by omega
  simp only [hge, hiff, ne_eq, not_true_eq_false, if_false]
  split_ifs <;> simp [Step.core]

/-- A result whose core has no outcome is a running state. -/
theorem step_core_none {r : Step} {t : Tracker} {n : Int} (h : r.core = (none, t, n)) :
    ∃ s, r = .running s ∧ s.trk = t ∧ s.remain = n := by
  cases r with
  | running s => simp [Step.core] at h; exact ⟨s, rfl, h.1, h.2⟩
  | done o s => simp [Step.core] at h

/-- A result whose core has an outcome is a finished run. -/
theorem step_core_some {r : Step} {o : Outcome} {t : Tracker} {n : Int}
    (h : r.core = (some o, t, n)) :
    ∃ s, r = .done o s ∧ s.trk = t ∧ s.remain = n := by
  cases r with
  | running s => simp [Step.core] at h
  | done o2 s => simp [Step.core] at h; obtain ⟨h1, h2, h3⟩ := h; subst h1; exact ⟨s, rfl, h2, h3⟩

/-- A stream of in-range values, none of them the final value `N - 1`, shorter
than the countdown, keeps the loop running and feeds the tracker. -/
theorem handle_events_rx_stream (N : Nat) (ids : Nat → Nat) (hN : (N : Int) < 2147483648) :
    ∀ (vals : List Nat) (s : LoopState), (∀ v ∈ vals, v + 1 < N) →
      (vals.length : Int) < s.remain →
      (handle_events N s (vals.map (rx_event ids))).core =
        (none, feed s.trk vals, s.remain - vals.length)
  | [], s, _, _ => by simp [handle_events, Step.core, feed]
  | v :: vals, s, hv, hlen => by
    have hv1 := hv v (List.mem_cons_self _ _)
    have h := handle_event_rx_event N ids s v hN (by omega)
    simp only [List.length_cons] at hlen
    push_cast at hlen
    rw [if_neg (by omega), if_neg (by omega)] at h
    obtain ⟨s1, e1, ht, hr⟩ := step_core_none h
    simp only [List.map_cons, handle_events, e1]
    rw [handle_events_rx_stream N ids hN vals s1 (fun w hw => hv w (List.mem_cons_of_mem _ hw))
      (by omega), ht, hr]
    simp only [feed, List.foldl_cons, List.length_cons]
    push_cast
    simp only [Prod.mk.injEq, true_and]
    omega

/-- A non-ending stream followed by one more value: the run is decided by the last event. -/
theorem handle_events_rx_stream_last (N : Nat) (ids : Nat → Nat) (hN : (N : Int) < 2147483648)
    (ys : List Nat) (z : Nat) (s : LoopState) (hys : ∀ v ∈ ys, v + 1 < N)
    (hlen : (ys.length : Int) < s.remain) :
    ∃ s1, s1.trk = feed s.trk ys ∧ s1.remain = s.remain - ys.length ∧
      (handle_events N s ((ys ++ [z]).map (rx_event ids))).core =
        (handle_event N s1 (rx_event ids z)).core := by
  obtain ⟨s1, e1, ht, hr⟩ := step_core_none (handle_events_rx_stream N ids hN ys s hys hlen)
  refine ⟨s1, ht, hr, ?_⟩
  rw [List.map_append, handle_events_append, e1]
  simp only [List.map_cons, List.map_nil, handle_events_singleton]

/-- The values of `[0, N)` missing from a duplicate-free in-range list number `N` minus its length. -/
theorem unobserved_count (N : Nat) (xs : List Nat) (hnd : xs.Nodup) (hr : ∀ x ∈ xs, x < N) :
    unobserved N xs = N - xs.length := by
  unfold unobserved
  have h1 : ((List.range N).filter (fun v => decide (v ∉ xs))).length
      = ((List.range N).filter (fun v => decide (v ∉ xs))).toFinset.card :=
    (List.toFinset_card_of_nodup ((List.nodup_range N).filter _)).symm
  have h2 : ((List.range N).filter (fun v => decide (v ∉ xs))).toFinset
      = Finset.range N \ xs.toFinset := by
    ext v
    simp
  have h3 : xs.toFinset ⊆ Finset.range N := by
    intro v hv
    simp at hv
    simpa using hr v hv
  rw [h1, h2, Finset.card_sdiff h3, Finset.card_range, List.toFinset_card_of_nodup hnd]

/-- The contiguous stream `0, ..., n - 1` fed from the initial state. -/
theorem feed_range (gap_start : Int) (n : Nat) (hn : (n : Int) < 2147483648) :
    feed (tracker_init gap_start) (List.range n) =
      { tracker_init gap_start with next_expected := n } := by
  have h := feed_contiguous 0 n (tracker_init gap_start) rfl rfl (by push_cast; omega)
  simpa using h

/-- Feeding one more value. -/
theorem feed_snoc (t : Tracker) (ys : List Nat) (z : Nat) :
    feed t (ys ++ [z]) = rx_loop_track (feed t ys) z := by
  simp [feed, List.foldl_append]

/-- A strictly increasing stream `ys ++ [N - 1]` that reaches `N - 1` while the
countdown is still positive ends the run with the lossy outcome; the reported
loss count is the number of unobserved values and the reported percentage is
`loss_percent` of it. -/
theorem rx_loop_lossy_run (N : Nat) (gap_start : Int) (ids : Nat → Nat) (ys : List Nat)
    (polls : List (List Event)) (hN : (N : Int) < 2147483648)
    (hinc : (ys ++ [N - 1]).Pairwise (· < ·)) (hlen : ys.length + 1 < N)
    (hpolls : polls.flatten = (ys ++ [N - 1]).map (rx_event ids)) :
    (∃ s, rx_loop N gap_start polls =
        .done (.finished_with_errors
          (unobserved N (ys ++ [N - 1]) : Int)
          (loss_percent (unobserved N (ys ++ [N - 1]) : Int) N)
          (report_errors (feed (tracker_init gap_start) (ys ++ [N - 1])).error_count
            (feed (tracker_init gap_start) (ys ++ [N - 1])).error)) s ∧
      s.remain = (unobserved N (ys ++ [N - 1]) : Int) ∧
      s.trk = feed (tracker_init gap_start) (ys ++ [N - 1])) ∧
    0 < unobserved N (ys ++ [N - 1]) ∧ unobserved N (ys ++ [N - 1]) ≤ N := by
  have hp := List.pairwise_append.mp hinc
  have hys : ∀ v ∈ ys, v + 1 < N := by
    intro v hv
    have := hp.2.2 v hv (N - 1) (by simp)
    omega
  have hcount := unobserved_count N (ys ++ [N - 1]) hinc.nodup
    (by
      intro x hx
      rcases List.mem_append.mp hx with hx | hx
      · have := hys x hx; omega
      · simp at hx; omega)
  simp only [List.length_append, List.length_singleton] at hcount
  have hinit := rx_loop_init_trk N gap_start
  obtain ⟨s1, ht, hr, hcore⟩ := handle_events_rx_stream_last N ids hN ys (N - 1)
    (rx_loop_init N gap_start) hys (by rw [hinit.2]; omega)
  have hev := handle_event_rx_event N ids s1 (N - 1) hN (by omega)
  rw [if_neg (by rw [hr, hinit.2]; omega), if_pos (by omega)] at hev
  have hfinal : (rx_loop N gap_start polls).core = _ :=
    ((rx_loop_from_core N polls (rx_loop_init N gap_start)).trans (by rw [hpolls]; exact hcore)).trans
      hev
  obtain ⟨s, hs, hst, hsr⟩ := step_core_some hfinal
  have hL : (unobserved N (ys ++ [N - 1]) : Int) = s1.remain - 1 := by
    rw [hcount, hr, hinit.2]
    omega
  have htrk : rx_loop_track s1.trk (N - 1) = feed (tracker_init gap_start) (ys ++ [N - 1]) := by
    rw [feed_snoc, ht, hinit.1]
  refine ⟨⟨s, ?_, ?_, ?_⟩, by omega, by omega⟩
  · rw [hs, hL, ← htrk]
  · rw [hsr, hL]
  · rw [hst, htrk]

/-- C3, as amended: for every target count `N` (a C `int`, at least 1) and every
strictly increasing stream `ys ++ [N - 1]` of sequence numbers in `[0, N)` that
reaches the value `N - 1` while the remaining counter is still positive
(`ys.length + 1 < N`), delivered in any batching `polls` of well-framed receive
events, the run ends with the lossy outcome and the number of lost packets it
reports is the number of values of `[0, N)` that were never observed.  The
reported percentage is the `double` quotient `lost / (N / 100.)` printed with
`%.3f`: a decimal with three fractional digits that lies within
`0.0005 + 10 ^ (-12)` of `100 * lost / N`, and is not in general equal to it.
For `N = 1000` with 37 lost values the reported percentage is `3.700`. -/
theorem rx_loop_lossy_report (N : Nat) (gap_start : Int) (ids : Nat → Nat) (ys : List Nat)
    (polls : List (List Event)) (hN : (N : Int) < 2147483648)
    (hinc : (ys ++ [N - 1]).Pairwise (· < ·)) (hlen : ys.length + 1 < N)
    (hpolls : polls.flatten = (ys ++ [N - 1]).map (rx_event ids)) :
    (∃ s, rx_loop N gap_start polls =
        .done (.finished_with_errors
          (unobserved N (ys ++ [N - 1]) : Int)
          (loss_percent (unobserved N (ys ++ [N - 1]) : Int) N)
          (report_errors (feed (tracker_init gap_start) (ys ++ [N - 1])).error_count
            (feed (tracker_init gap_start) (ys ++ [N - 1])).error)) s ∧
      s.remain = (unobserved N (ys ++ [N - 1]) : Int) ∧
      s.trk = feed (tracker_init gap_start) (ys ++ [N - 1])) ∧
    |loss_percent (unobserved N (ys ++ [N - 1]) : Int) N
        - 100 * ((unobserved N (ys ++ [N - 1]) : Int) : ℚ) / ((N : Int) : ℚ)|
      ≤ 1 / 2000 + 1 / 10 ^ 12 ∧
    (∃ k : Int, loss_percent (unobserved N (ys ++ [N - 1]) : Int) N = (k : ℚ) / 1000) ∧
    (N = 1000 → unobserved N (ys ++ [N - 1]) = 37 →
      loss_percent (unobserved N (ys ++ [N - 1]) : Int) N = 37 / 10) := by
  obtain ⟨hrun, hpos, hle⟩ := rx_loop_lossy_run N gap_start ids ys polls hN hinc hlen hpolls
  refine ⟨hrun, ?_, loss_percent_decimal _ _, ?_⟩
  · exact loss_percent_bound _ _ (by exact_mod_cast hpos) (by exact_mod_cast hle)
  · intro hN1000 h37
    rw [h37, hN1000]
    exact loss_percent_37_of_1000

/-- The amended C3 statement for `N = 10` and the stream `0,1,2,5,9` polled in three
batches: 5 values are lost. -/
theorem rx_loop_lossy_report_witness :
    ([0, 1, 2, 5] ++ [10 - 1]).Pairwise (· < ·) ∧
    unobserved 10 ([0, 1, 2, 5] ++ [10 - 1]) = 5 ∧
    ∃ s, rx_loop (10 : Nat) 0
        [[rx_event id 0, rx_event id 1], [], [rx_event id 2, rx_event id 5, rx_event id 9]] =
        .done (.finished_with_errors
          (unobserved 10 ([0, 1, 2, 5] ++ [10 - 1]) : Int)
          (loss_percent (unobserved 10 ([0, 1, 2, 5] ++ [10 - 1]) : Int) (10 : Nat))
          (report_errors (feed (tracker_init 0) ([0, 1, 2, 5] ++ [10 - 1])).error_count
            (feed (tracker_init 0) ([0, 1, 2, 5] ++ [10 - 1])).error)) s ∧
      s.remain = (unobserved 10 ([0, 1, 2, 5] ++ [10 - 1]) : Int) ∧
      s.trk = feed (tracker_init 0) ([0, 1, 2, 5] ++ [10 - 1]) :=
  ⟨by decide, by decide,
   (rx_loop_lossy_report 10 0 id [0, 1, 2, 5]
      [[rx_event id 0, rx_event id 1], [], [rx_event id 2, rx_event id 5, rx_event id 9]]
      (by decide) (by decide) (by decide) (by decide)).1⟩

/-- C3 fails as stated: with target count 3, the stream consisting of the value 2
alone ends the run with 2 packets lost (0 and 1 were never observed) and the
report shows `66.667`, which is not the exact rational `100 * 2 / 3`. -/
theorem rx_loop_percent_not_exact :
    unobserved 3 [2] = 2 ∧
    (∃ s report, rx_loop (3 : Nat) 0 [[rx_event id 2]] =
      .done (.finished_with_errors 2 (66667 / 1000) report) s) ∧
    (66667 / 1000 : ℚ) ≠ 100 * 2 / 3 := by
  refine ⟨by decide, ?_, by norm_num⟩
  obtain ⟨⟨s, hs, -, -⟩, -, -⟩ := rx_loop_lossy_run 3 0 id [] [[rx_event id 2]]
    (by decide) (by decide) (by decide) (by decide)
  have hu : unobserved 3 ([] ++ [3 - 1]) = 2 := by decide
  rw [hu] at hs
  refine ⟨s, report_errors (feed (tracker_init 0) ([] ++ [3 - 1])).error_count
    (feed (tracker_init 0) ([] ++ [3 - 1])).error, ?_⟩
  rw [hs]
  simp only [Nat.cast_ofNat]
  rw [loss_percent_two_of_three]

/-- C4: for every `K ≥ 1` (a C `int`), running the receive loop with target count
`K` on the contiguous stream `0, 1, ..., K - 1`, in any batching: after the
`j`-th feed with `j < K` the loop is still running, the remaining counter is
exactly `K - j`, and no gap is recorded (empty gap list, total count 0, `in_gap`
clear); at the `K`-th feed the run ends with the clean "all packets received"
outcome (not the lossy one), the remaining counter is exactly zero and still no
gap is recorded. -/
theorem rx_loop_contiguous (K : Nat) (gap_start : Int) (ids : Nat → Nat) (j : Nat)
    (polls : List (List Event)) (hK1 : 1 ≤ K) (hK : (K : Int) < 2147483648) (hj : j ≤ K)
    (hpolls : polls.flatten = (List.range j).map (rx_event ids)) :
    (j < K → ∃ s, rx_loop K gap_start polls = .running s ∧ s.remain = (K : Int) - j ∧
      s.trk.error = [] ∧ s.trk.error_count = 0 ∧ s.trk.in_gap = 0) ∧
    (j = K → ∃ s, rx_loop K gap_start polls = .done .all_received s ∧ s.remain = 0 ∧
      s.trk.error = [] ∧ s.trk.error_count = 0 ∧ s.trk.in_gap = 0) := by
  have hinit := rx_loop_init_trk K gap_start
  have hcore := rx_loop_from_core K polls (rx_loop_init K gap_start)
  rw [hpolls] at hcore
  constructor
  · intro hlt
    have h := handle_events_rx_stream K ids hK (List.range j) (rx_loop_init K gap_start)
      (by intro v hv; have := List.mem_range.mp hv; omega)
      (by rw [hinit.2, List.length_range]; omega)
    obtain ⟨s, hs, hst, hsr⟩ := step_core_none (hcore.trans h)
    rw [hinit.1, feed_range gap_start j (by omega)] at hst
    rw [hinit.2, List.length_range] at hsr
    exact ⟨s, hs, hsr, by rw [hst]; rfl, by rw [hst]; rfl, by rw [hst]; rfl⟩
  · intro heq
    subst heq
    obtain ⟨m, rfl⟩ : ∃ m, j = m + 1 := ⟨j - 1, by omega⟩
    rw [List.range_succ] at hcore
    obtain ⟨s1, ht, hr, hc⟩ := handle_events_rx_stream_last (m + 1) ids hK (List.range m) m
      (rx_loop_init (m + 1 : Nat) gap_start)
      (by intro v hv; have := List.mem_range.mp hv; omega)
      (by rw [hinit.2, List.length_range]; push_cast; omega)
    have hev := handle_event_rx_event (m + 1) ids s1 m hK (by omega)
    rw [hr, hinit.2, List.length_range] at hev
    rw [if_pos (by push_cast; omega)] at hev
    obtain ⟨s, hs, hst, hsr⟩ := step_core_some ((hcore.trans hc).trans hev)
    rw [ht, hinit.1, ← feed_snoc, ← List.range_succ, feed_range gap_start (m + 1) hK] at hst
    exact ⟨s, hs, by rw [hsr]; push_cast; omega, by rw [hst]; rfl, by rw [hst]; rfl,
      by rw [hst]; rfl⟩

/-- The C4 statement for `K = 5` after three feeds polled in two batches. -/
theorem rx_loop_contiguous_witness :
    (∃ s, rx_loop (5 : Nat) 0 [[rx_event id 0, rx_event id 1], [rx_event id 2]] = .running s ∧
      s.remain = ((5 : Nat) : Int) - (3 : Nat) ∧
      s.trk.error = [] ∧ s.trk.error_count = 0 ∧ s.trk.in_gap = 0) :=
  (rx_loop_contiguous 5 0 id 3 [[rx_event id 0, rx_event id 1], [rx_event id 2]]
    (by decide) (by decide) (by decide) (by decide)).1 (by decide)

/-- C5, as amended: for every receive-completion event and every positive target
count `N` (a C `int`), processing the event is fatal (exit status 1) if and
only if a framing check fails (`SOP ≠ 1` or `CONT ≠ 0`) or the sequence number
read from the payload, taken as an unsigned 32-bit value, is at or beyond `N`;
so negative 32-bit payload values are fatal too.  When it is fatal, the
gap-tracker state, the remaining counter and the pending count are not updated
and the buffer is not re-posted (the completed slot just leaves the ring);
when the framing is good and the value is in range the event is fed to the gap
tracker. -/
theorem handle_event_rx_fatal_iff (N : Int) (s : LoopState) (sop cont : Int) (buf_id : Nat)
    (payload : Int) (hN0 : 0 < N) (hN : N < 2147483648) :
    ((∃ s1, handle_event N s (.rx sop cont buf_id payload) = .done .exit_failure s1) ↔
      (sop ≠ 1 ∨ cont ≠ 0 ∨ N ≤ (to_unsigned payload : Int))) ∧
    (∀ s1, handle_event N s (.rx sop cont buf_id payload) = .done .exit_failure s1 →
      s1.trk = s.trk ∧ s1.remain = s.remain ∧ s1.n_recv_queued = s.n_recv_queued ∧
      s1.ring_pending = s.ring_pending ∧ s1.ring_posted = s.ring_posted.erase buf_id) ∧
    (-2147483648 ≤ payload → payload < 0 → N ≤ (to_unsigned payload : Int)) ∧
    (sop = 1 → cont = 0 → (to_unsigned payload : Int) < N →
      (handle_event N s (.rx sop cont buf_id payload)).state.trk
        = rx_loop_track s.trk (to_unsigned payload)) := by
  have hu : to_unsigned N = N.toNat := by unfold to_unsigned; omega
  have hcmp : to_unsigned payload ≥ to_unsigned N ↔ N ≤ (to_unsigned payload : Int) := by
    rw [hu]; omega
  refine ⟨?_, ?_, ?_, ?_⟩
  · simp only [handle_event, hcmp]
    constructor
    · rintro ⟨s1, h⟩
      by_contra hcon
      push_neg at hcon
      obtain ⟨h1, h2, h3⟩ := hcon
      rw [if_neg (by simpa using h1), if_neg (by simpa using h2), if_neg (by omega)] at h
      split_ifs at h <;> simp at h
    · intro h
      by_cases h1 : sop ≠ 1
      · exact ⟨_, by rw [if_pos h1]⟩
      · by_cases h2 : cont ≠ 0
        · exact ⟨_, by rw [if_neg h1, if_pos h2]⟩
        · have h3 : N ≤ (to_unsigned payload : Int) := by
            rcases h with h | h | h
            · exact absurd h h1
            · exact absurd h h2
            · exact h
          exact ⟨_, by rw [if_neg h1, if_neg h2, if_pos h3]⟩
  · intro s1 h
    simp only [handle_event] at h
    split_ifs at h
    all_goals first
      | (cases h; simp [ring_complete])
      | simp at h
  · intro h1 h2
    unfold to_unsigned; omega
  · intro h1 h2 h3
    simp only [handle_event, hcmp]
    rw [if_neg (by simpa using h1), if_neg (by simpa using h2), if_neg (by omega)]
    split_ifs <;> simp [Step.state, ring_complete, ef_vi_receive_init]

/-- The amended C5 statement at `N = 10` for a well-framed event whose payload is
`-1`: as an unsigned value it is beyond `N`, so the event is fatal. -/
theorem handle_event_rx_fatal_iff_witness :
    ((∃ s1, handle_event 10 (rx_loop_init 10 0) (.rx 1 0 7 (-1)) = .done .exit_failure s1) ↔
      ((1 : Int) ≠ 1 ∨ (0 : Int) ≠ 0 ∨ (10 : Int) ≤ (to_unsigned (-1) : Int))) ∧
    (10 : Int) ≤ (to_unsigned (-1) : Int) :=
  ⟨(handle_event_rx_fatal_iff 10 (rx_loop_init 10 0) 1 0 7 (-1) (by decide) (by decide)).1,
   by decide⟩

/-- C5 fails as stated: with target count 10, a receive event carrying the in-range
sequence number 3 is fatal when its `SOP` flag is 0, and also when its `CONT`
flag is 1. -/
theorem handle_event_bad_framing_fatal :
    handle_event 10 (rx_loop_init 10 0) (.rx 0 0 7 3)
      = .done .exit_failure (ring_complete (rx_loop_init 10 0) 7) ∧
    to_unsigned 3 < 10 ∧
    handle_event 10 (rx_loop_init 10 0) (.rx 1 1 7 3)
      = .done .exit_failure (ring_complete (rx_loop_init 10 0) 7) :=
  ⟨rfl, by decide, rfl⟩

/-! ### The loop: batched push -/

/-- One event adds at most one pending re-post and keeps counter and ring in step. -/
theorem handle_event_queued (cfg_iter : Int) (s : LoopState) (e : Event) (h : queued_ok s) :
    queued_ok (handle_event cfg_iter s e).state ∧
    (handle_event cfg_iter s e).state.n_recv_queued ≤ s.n_recv_queued + 1 := by
  unfold queued_ok at *
  cases e with
  | rx sop cont buf_id payload =>
    simp only [handle_event, ring_complete, ef_vi_receive_init]
    split_ifs <;> simp [Step.state, h]
  | rx_discard rq_id => simp [handle_event, ring_complete, Step.state, h]
  | other => simp [handle_event, Step.state, h]

/-- A batch adds at most its length to the pending count. -/
theorem handle_events_queued (cfg_iter : Int) : ∀ (evs : List Event) (s : LoopState),
    queued_ok s →
    queued_ok (handle_events cfg_iter s evs).state ∧
    (handle_events cfg_iter s evs).state.n_recv_queued ≤ s.n_recv_queued + evs.length
  | [], s, h => by simpa [handle_events, Step.state] using h
  | e :: evs, s, h => by
    have h1 := handle_event_queued cfg_iter s e h
    simp only [handle_events]
    cases hr : handle_event cfg_iter s e with
    | running s1 =>
      rw [hr] at h1
      simp only [Step.state] at h1
      have h2 := handle_events_queued cfg_iter evs s1 h1.1
      refine ⟨h2.1, ?_⟩
      simp only [List.length_cons]
      push_cast
      have := h1.2
      have := h2.2
      omega
    | done o s1 =>
      rw [hr] at h1
      simp only [Step.state] at h1 ⊢
      refine ⟨h1.1, ?_⟩
      simp only [List.length_cons]
      push_cast
      have := h1.2
      omega

/-- After the push check at most 15 re-posts are pending. -/
theorem push_if_due_queued (s : LoopState) (h : queued_ok s) :
    queued_ok (push_if_due s) ∧ (push_if_due s).n_recv_queued ≤ 15 := by
  unfold queued_ok at *
  unfold push_if_due ef_vi_receive_push
  split
  · simp
  · refine ⟨h, by omega⟩

/-- The poll counters touch neither the pending count nor the ring. -/
theorem count_poll_queued (s : LoopState) (n : Nat) :
    (count_poll s n).n_recv_queued = s.n_recv_queued ∧
    (count_poll s n).ring_pending = s.ring_pending := by
  unfold count_poll
  split <;> simp

/-- Between poll iterations at most 15 re-posts are pending. -/
theorem rx_loop_from_queued (cfg_iter : Int) : ∀ (polls : List (List Event)) (s s1 : LoopState),
    queued_ok s → s.n_recv_queued ≤ 15 →
    rx_loop_from cfg_iter s polls = .running s1 →
    queued_ok s1 ∧ s1.n_recv_queued ≤ 15
  | [], s, s1, h, hb, hrun => by
    simp only [rx_loop_from, Step.running.injEq] at hrun
    subst hrun
    exact ⟨h, hb⟩
  | evs :: rest, s, s1, h, _, hrun => by
    simp only [rx_loop_from, poll_iteration] at hrun
    have hq : queued_ok (count_poll s evs.length) := by
      unfold queued_ok at *
      rw [(count_poll_queued s _).1, (count_poll_queued s _).2]; exact h
    have h1 := handle_events_queued cfg_iter evs _ hq
    cases hr : handle_events cfg_iter (count_poll s evs.length) evs with
    | running s2 =>
      rw [hr] at hrun h1
      simp only [Step.state] at h1
      have h2 := push_if_due_queued s2 h1.1
      exact rx_loop_from_queued cfg_iter rest (push_if_due s2) s1 h2.1 h2.2 hrun
    | done o s2 =>
      rw [hr] at hrun
      simp at hrun

/-- Nothing is pending on entry to the loop. -/
theorem rx_loop_init_queued (cfg_iter gap_start : Int) :
    queued_ok (rx_loop_init cfg_iter gap_start) ∧
    (rx_loop_init cfg_iter gap_start).n_recv_queued = 0 := by
  have h : ∀ (l : List Nat) (s : LoopState),
      (l.foldl ef_vi_receive_init s).n_recv_queued = s.n_recv_queued := by
    intro l
    induction l with
    | nil => intro s; simp
    | cons a l ih => intro s; simpa [ef_vi_receive_init] using ih (ef_vi_receive_init s a)
  unfold queued_ok
  simp only [rx_loop_init, ef_vi_receive_push, h]
  simp

/-- C8, as amended: the batched commit is decided once per poll iteration, after
the whole polled batch has been handled, and is taken when at least 16
re-posts are pending.  In every state `s` the loop reaches between poll
iterations the pending count is at most 15 and equals the number of ring
descriptors not yet pushed; while the next batch `evs` of at most
`EVENTS_PER_POLL` events is handled the pending count never exceeds
`15 + 32 = 47`; and the commit that closes the iteration, taken exactly when
the count is at least 16, resets the count to zero and pushes every pending
descriptor. -/
theorem rx_loop_pending_bound (cfg_iter gap_start : Int) (polls : List (List Event))
    (evs : List Event) (n_ev : Nat) (s : LoopState)
    (hevs : evs.length ≤ EVENTS_PER_POLL)
    (hrun : rx_loop cfg_iter gap_start polls = .running s) :
    s.n_recv_queued ≤ 15 ∧
    (s.ring_pending.length : Int) = s.n_recv_queued ∧
    (handle_events cfg_iter (count_poll s n_ev) evs).state.n_recv_queued ≤ 47 ∧
    ((handle_events cfg_iter (count_poll s n_ev) evs).state.ring_pending.length : Int)
      = (handle_events cfg_iter (count_poll s n_ev) evs).state.n_recv_queued ∧
    (∀ s1, handle_events cfg_iter (count_poll s n_ev) evs = .running s1 →
      (16 ≤ s1.n_recv_queued →
        (push_if_due s1).n_recv_queued = 0 ∧ (push_if_due s1).ring_pending = [] ∧
        (push_if_due s1).ring_posted = s1.ring_posted ++ s1.ring_pending) ∧
      (s1.n_recv_queued < 16 → push_if_due s1 = s1)) := by
  have hinit := rx_loop_init_queued cfg_iter gap_start
  have hs := rx_loop_from_queued cfg_iter polls _ s hinit.1 (by rw [hinit.2]; omega) hrun
  have hq : queued_ok (count_poll s n_ev) := by
    unfold queued_ok at *
    rw [(count_poll_queued s _).1, (count_poll_queued s _).2]; exact hs.1
  have h1 := handle_events_queued cfg_iter evs _ hq
  refine ⟨hs.2, hs.1, ?_, h1.1, ?_⟩
  · have := h1.2
    rw [(count_poll_queued s _).1] at this
    have := hs.2
    simp only [EVENTS_PER_POLL] at hevs
    omega
  · intro s1 _
    constructor
    · intro h16
      simp [push_if_due, ef_vi_receive_push, h16]
    · intro h16
      simp [push_if_due, h16]

/-- The tracker of a running loop is the fold of the tracking block over the
observed values: a stream of well-framed in-range events that does not end the
run leaves the loop running with `trk = feed _ vals`. -/
theorem rx_loop_tracker_eq_feed (N : Nat) (gap_start : Int) (ids : Nat → Nat)
    (vals : List Nat) (polls : List (List Event)) (hN : (N : Int) < 2147483648)
    (hv : ∀ v ∈ vals, v + 1 < N) (hlen : vals.length < N)
    (hpolls : polls.flatten = vals.map (rx_event ids)) :
    ∃ s, rx_loop N gap_start polls = .running s ∧
      s.trk = feed (tracker_init gap_start) vals ∧ s.remain = (N : Int) - vals.length := by
  have hinit := rx_loop_init_trk N gap_start
  have hcore := rx_loop_from_core N polls (rx_loop_init N gap_start)
  rw [hpolls] at hcore
  have h := handle_events_rx_stream N ids hN vals (rx_loop_init N gap_start) hv
    (by rw [hinit.2]; omega)
  obtain ⟨s, hs, hst, hsr⟩ := step_core_none (hcore.trans h)
  exact ⟨s, hs, by rw [hst, hinit.1], by rw [hsr, hinit.2]⟩

/-! ### The loop: buffer ring -/

/-- The ring after a run of `ef_vi_receive_init` calls. -/
theorem foldl_receive_init_ring : ∀ (l : List Nat) (s : LoopState),
    (l.foldl ef_vi_receive_init s).ring_pending = s.ring_pending ++ l ∧
    (l.foldl ef_vi_receive_init s).ring_posted = s.ring_posted
  | [], s => by simp
  | a :: l, s => by
    have := foldl_receive_init_ring l (ef_vi_receive_init s a)
    simpa [ef_vi_receive_init] using this

/-- After the initial fill every slot is posted. -/
theorem rx_loop_init_ring_ok (cfg_iter gap_start : Int) :
    ring_ok (rx_loop_init cfg_iter gap_start) := by
  unfold ring_ok
  simp only [rx_loop_init, ef_vi_receive_push]
  rw [(foldl_receive_init_ring _ _).1, (foldl_receive_init_ring _ _).2]
  simp

/-- A handled receive event of a held slot that does not end the run re-posts the
slot: the ring invariant is kept. -/
theorem handle_event_rx_ring_ok (cfg_iter : Int) (s s1 : LoopState) (sop cont : Int)
    (buf_id : Nat) (payload : Int) (hok : ring_ok s) (hheld : buf_id ∈ s.ring_posted)
    (hrun : handle_event cfg_iter s (.rx sop cont buf_id payload) = .running s1) :
    ring_ok s1 := by
  unfold ring_ok at *
  simp only [handle_event] at hrun
  split_ifs at hrun
  simp only [Step.running.injEq] at hrun
  subst hrun
  simp only [ef_vi_receive_init, ring_complete]
  have h1 : (s.ring_posted.erase buf_id ++ (s.ring_pending ++ [buf_id])).Perm
      (buf_id :: s.ring_posted.erase buf_id ++ s.ring_pending) := by
    rw [← List.append_assoc]
    refine List.perm_append_singleton buf_id _ |>.trans ?_
    simp
  have h2 : (buf_id :: s.ring_posted.erase buf_id ++ s.ring_pending).Perm
      (s.ring_posted ++ s.ring_pending) :=
    (List.perm_cons_erase hheld).symm.append_right _
  exact (h1.trans h2).trans hok

/-- The push that closes a poll iteration keeps the ring invariant. -/
theorem push_if_due_ring_ok (s : LoopState) (hok : ring_ok s) : ring_ok (push_if_due s) := by
  unfold ring_ok at *
  unfold push_if_due ef_vi_receive_push
  split
  · simpa using hok
  · exact hok

/-- A discard completion of a held slot is not followed by a re-post: the slot
is held nowhere afterwards. -/
theorem handle_event_discard_drops_slot (cfg_iter : Int) (s : LoopState) (rq_id : Nat)
    (hok : ring_ok s) (hheld : rq_id ∈ s.ring_posted) :
    ∃ s1, handle_event cfg_iter s (.rx_discard rq_id) = .running s1 ∧
      rq_id ∉ s1.ring_posted ∧ rq_id ∉ s1.ring_pending ∧ ¬ ring_ok s1 := by
  unfold ring_ok at *
  have hnd : (s.ring_posted ++ s.ring_pending).Nodup := hok.nodup_iff.mpr (List.nodup_range _)
  have hnd' := List.nodup_append.mp hnd
  have h1 : rq_id ∉ s.ring_posted.erase rq_id := by
    intro h
    exact ((hnd'.1.mem_erase_iff).mp h).1 rfl
  have h2 : rq_id ∉ s.ring_pending := fun h => hnd'.2.2 hheld h
  refine ⟨ring_complete s rq_id, rfl, h1, h2, ?_⟩
  intro hperm
  have hmem : rq_id ∈ s.ring_posted ++ s.ring_pending := List.mem_append_left _ hheld
  have hr : rq_id ∈ List.range N_BUFS := hok.mem_iff.mp hmem
  have : rq_id ∈ (ring_complete s rq_id).ring_posted ++ (ring_complete s rq_id).ring_pending :=
    hperm.mem_iff.mpr hr
  simp only [ring_complete] at this
  rcases List.mem_append.mp this with h | h
  · exact h1 h
  · exact h2 h

/-- C7 at its failing input: after 20 calls of `note_gap` (those the tracker makes on
the stream `0,1, 3,4, ..., 60,61`) the total count is 20, but only 19 gaps are
stored and printed and the residual line is not printed, so the report accounts
for 19 gaps. -/
theorem note_gap_twentieth_unaccounted :
    (feed (tracker_init 0) two_of_three).error_count = (note_gaps twenty_gaps).1 ∧
    (feed (tracker_init 0) two_of_three).error = (note_gaps twenty_gaps).2 ∧
    (note_gaps twenty_gaps).1 = 20 ∧
    (note_gaps twenty_gaps).2.length = 19 ∧
    (report_errors (note_gaps twenty_gaps).1 (note_gaps twenty_gaps).2).shown = 19 ∧
    (report_errors (note_gaps twenty_gaps).1 (note_gaps twenty_gaps).2).more_not_shown = none ∧
    (report_errors (note_gaps twenty_gaps).1 (note_gaps twenty_gaps).2).shown
      + (report_errors (note_gaps twenty_gaps).1 (note_gaps twenty_gaps).2).residual = 19 := by
  decide

/-- C10, as amended: for every stored gap list, `report_errors_internal` emits the
gaps oldest first; the per-gap figure it prints for a stored gap `[start, end]`
is `end - start` (so a stored `[5,9]` is printed as 4, and the gap `[5,10]` that
the tracker stores when 5..9 are lost is printed as 5); the stride printed for
every gap except the oldest is the gap's start minus the previous (older) gap's
end. -/
theorem report_errors_internal_spec (error : List Gap) :
    report_errors_internal error = emit_oldest_first gap_span error.reverse ∧
    sizes_of (report_errors_internal error) = error.reverse.map (fun g => g.end_ - g.start) ∧
    report_errors_internal [{ start := 5, end_ := 9 }] = [Item.size 4] ∧
    report_errors_internal [{ start := 20, end_ := 23 }, { start := 5, end_ := 10 }]
      = [Item.size 5, Item.stride 10, Item.size 3] :=
  ⟨report_errors_internal_eq_emit error, sizes_of_report error, by decide, by decide⟩

/-- C10 fails as stated: for the stored gap `[5,9]` the reporter prints the size
item 4, where the count of the closed interval is 5. -/
theorem report_errors_internal_size_off_by_one :
    report_errors_internal [{ start := 5, end_ := 9 }] = [Item.size 4] ∧
    emit_oldest_first gap_count [{ start := 5, end_ := 9 }] = [Item.size 5] ∧
    report_errors_internal [{ start := 5, end_ := 9 }]
      ≠ emit_oldest_first gap_count [{ start := 5, end_ := 9 }] := by
  decide

/-- The amended C8 bound is attained: after a poll of 15 receive events, a poll of
32 more leaves 47 re-posts pending before the commit. -/
theorem rx_loop_pending_bound_witness :
    rx_loop 100 0 [(List.range 15).map (rx_event id)]
      = .running (rx_loop 100 0 [(List.range 15).map (rx_event id)]).state ∧
    (handle_events 100 (count_poll (rx_loop 100 0 [(List.range 15).map (rx_event id)]).state 32)
      ((List.range 32).map (fun x => rx_event id (x + 15)))).state.n_recv_queued ≤ 47 ∧
    (handle_events 100 (count_poll (rx_loop 100 0 [(List.range 15).map (rx_event id)]).state 32)
      ((List.range 32).map (fun x => rx_event id (x + 15)))).state.n_recv_queued = 47 :=
  ⟨by decide,
   (rx_loop_pending_bound 100 0 [(List.range 15).map (rx_event id)]
      ((List.range 32).map (fun x => rx_event id (x + 15))) 32
      (rx_loop 100 0 [(List.range 15).map (rx_event id)]).state (by decide) (by decide)).2.2.1,
   by decide⟩

/-- C8 fails as stated: during a single poll of 17 receive events the pending
count reaches 17 with no commit after the 16th re-post; the commit comes only at
the end of the iteration. -/
theorem handle_events_seventeen_pending :
    (List.range 17).length ≤ EVENTS_PER_POLL ∧
    (handle_events 100 (rx_loop_init 100 0) ((List.range 17).map (rx_event id))).state.n_recv_queued
      = 17 ∧
    (handle_events 100 (rx_loop_init 100 0) ((List.range 17).map (rx_event id))).state.ring_pending
      = List.range 17 ∧
    (rx_loop 100 0 [(List.range 17).map (rx_event id)]).state.n_recv_queued = 0 ∧
    (rx_loop 100 0 [(List.range 17).map (rx_event id)]).state.ring_pending = [] := by
  decide

/-- C9 at its failing input: after the initial fill, a poll that returns one
discard completion for slot 0 leaves the loop running with slot 0 held nowhere
in the ring, so only 255 of the 256 slots are posted. -/
theorem rx_loop_discard_leaks_slot :
    rx_loop 100 0 [[Event.rx_discard 0]]
      = .running (rx_loop 100 0 [[Event.rx_discard 0]]).state ∧
    0 ∉ (rx_loop 100 0 [[Event.rx_discard 0]]).state.ring_posted ∧
    0 ∉ (rx_loop 100 0 [[Event.rx_discard 0]]).state.ring_pending ∧
    (rx_loop 100 0 [[Event.rx_discard 0]]).state.ring_posted.length
      + (rx_loop 100 0 [[Event.rx_discard 0]]).state.ring_pending.length = 255 ∧
    N_BUFS = 256 := by
  decide

end Recv
